import Mathlib

/-!
Verification development for the module-compilation core of the mako bundler:
the dependency graph (`src/crates/mako/src/module_graph.rs`), the tag-based
environment substitution pass (`src/crates/mako/src/visitors/env_replacer.rs`),
the declaration-set environment substitution pass
(`src/crates/mako/src/transformers/transform_env_replacer.rs`), and the
dependency injection pass (`src/crates/mako/src/plugins/minifish/inject.rs`).

The swc syntax tree is shallowly embedded: identifiers carry a `ctxt : Nat`
standing for the outer mark of their `SyntaxContext` (the resolver's scope
tag); the reserved mark `unresolvedMark` flags free occurrences, and `0`
stands for the root mark carried by `DUMMY_SP` / empty contexts.  Hash maps
(`AHashMap`, `HashMap`) are association lists with last-insert-wins insertion
and first-match lookup; their iteration order is modelled as list order.
Rust panics are modelled as `Option.none`; `anyhow::Result` as `Except`.
-/

mutual
/-- Shallow embedding of the subset of `swc_ecma_ast::Expr` handled by the
rewrite passes.  Member expressions are flattened by the shape of their
`MemberProp`: `memberI` is `MemberProp::Ident`, `memberC` is
`MemberProp::Computed`, `memberP` is `MemberProp::PrivateName`.  `metaProp`
is `Expr::MetaProp` with `MetaPropKind::ImportMeta`.  Object literal keys
are `PropName::Ident` (as produced by `get_env_expr`). -/
inductive JExpr where
  | ident (sym : String) (ctxt : Nat)
  | boolLit (b : Bool)
  | numLit (n : Int)
  | strLit (s : String)
  | nullLit
  | metaProp
  | array (elems : JExprList)
  | object (props : JPropList)
  | memberI (obj : JExpr) (propSym : String) (propCtxt : Nat)
  | memberC (obj : JExpr) (propExpr : JExpr)
  | memberP (obj : JExpr) (propSym : String) (propCtxt : Nat)
  | call (callee : JExpr) (args : JExprList)
  deriving DecidableEq

/-- List of expressions (array elements, call arguments). -/
inductive JExprList where
  | nil
  | cons (head : JExpr) (tail : JExprList)
  deriving DecidableEq

/-- Key/value properties of an object literal. -/
inductive JPropList where
  | nil
  | cons (key : String) (value : JExpr) (tail : JPropList)
  deriving DecidableEq
end

/-- First-match association-list lookup, modelling `AHashMap::get` on a map
whose entries are kept duplicate-free by `insertEnv`. -/
def lookupEnv : List (String × JExpr) → String → Option JExpr
  | [], _ => none
  | p :: rest, k => if p.1 = k then some p.2 else lookupEnv rest k

/-- `AHashMap::insert`: the new binding replaces any previous binding of the
same key. -/
def insertEnv (m : List (String × JExpr)) (k : String) (v : JExpr) :
    List (String × JExpr) :=
  (m.filter (fun p => p.1 ≠ k)) ++ [(k, v)]

/-- The meta-env map built by `EnvReplacer::new` (visitors/env_replacer.rs
lines 36-48): every entry of `envs` is inserted, with the key `NODE_ENV`
renamed to `MODE`. -/
def buildMetaEnvs (envs : List (String × JExpr)) : List (String × JExpr) :=
  envs.foldl
    (fun acc p =>
      insertEnv acc (if p.1 = "NODE_ENV" then "MODE" else p.1) p.2) []

/-- The `EnvsType` enum of env_replacer.rs: `Node` holds the
`process.env` map, `Browser` the `import.meta.env` map. -/
inductive EnvsType where
  | node (m : List (String × JExpr))
  | browser (m : List (String × JExpr))

/-- `EnvReplacer::get_env`. -/
def getEnv : EnvsType → String → Option JExpr
  | .node m, s => lookupEnv m s
  | .browser m, s => lookupEnv m s

/-- The replacement `Ident::new` of the word `undefined` at `DUMMY_SP`: the
dummy span carries the empty syntax context, whose outer mark is the root
mark 0. -/
def undefinedIdent : JExpr := .ident "undefined" 0

/-- The `EnvReplacer` visitor of visitors/env_replacer.rs. -/
structure EnvReplacerV where
  unresolvedMark : Nat
  envs : List (String × JExpr)
  metaEnvs : List (String × JExpr)

/-- The `EnvReplacer::new` constructor of visitors/env_replacer.rs
(lines 35-55). -/
def mkEnvReplacerV (envs : List (String × JExpr)) (unresolvedMark : Nat) :
    EnvReplacerV :=
  { unresolvedMark := unresolvedMark
    envs := envs
    metaEnvs := buildMetaEnvs envs }

/-- The match over `first_obj` in `visit_mut_expr` (lines 96-109): an
identifier named `process` (its syntax context is not inspected) selects the
node map, `import.meta` selects the browser map, anything else no map. -/
def firstObjEnvs (r : EnvReplacerV) : JExpr → Option EnvsType
  | .ident sym _ => if sym = "process" then some (.node r.envs) else none
  | .metaProp => some (.browser r.metaEnvs)
  | _ => none

/-- Conversion of the meta-env map into object-literal properties, as in the
bare `import.meta.env` branch (lines 156-170). -/
def propsOfList : List (String × JExpr) → JPropList
  | [] => .nil
  | p :: rest => .cons p.1 p.2 (propsOfList rest)

/-- Lines 111-140 of visitors/env_replacer.rs: the map literal when the key
is present, the `undefined` identifier when it is absent. -/
def getEnvOrUndefined (envs : EnvsType) (key : String) : JExpr :=
  match getEnv envs key with
  | some env => env
  | none => undefinedIdent

mutual
/-- The `EnvReplacer::visit_mut_expr` of visitors/env_replacer.rs together
with the default `visit_mut_children_with` traversal.  The `fuel` argument
bounds how often the pass re-enters a freshly substituted subtree (the
fall-through to `visit_mut_children_with` after a member-access replacement,
handled by `visitReplV`), the one place where the Rust recursion is not
structural; `none` means the bound was exhausted.  The identifier branch
returns without visiting the replacement (the early `return` at line 78), so
it consumes no fuel; an `Ident` has no child expressions, so its
children-visit is written as the identity. -/
def visitV (r : EnvReplacerV) (fuel : Nat) (e : JExpr) : Option JExpr :=
  match e with
  | .ident sym ctxt =>
      if ctxt ≠ r.unresolvedMark then some (.ident sym ctxt)
      else
        match lookupEnv r.envs sym with
        | some env => some env
        | none => some (.ident sym ctxt)
  | .memberI (.memberI firstObj "env" oc) propSym propCtxt =>
      match firstObjEnvs r firstObj with
      | some envs => visitReplV r fuel (getEnvOrUndefined envs propSym)
      | none =>
          visitChildrenV r fuel
            (.memberI (.memberI firstObj "env" oc) propSym propCtxt)
  | .memberI .metaProp "env" _propCtxt =>
      visitReplV r fuel (.object (propsOfList r.metaEnvs))
  | .memberC (.memberI firstObj "env" oc) (.strLit s) =>
      match firstObjEnvs r firstObj with
      | some envs => visitReplV r fuel (getEnvOrUndefined envs s)
      | none =>
          visitChildrenV r fuel
            (.memberC (.memberI firstObj "env" oc) (.strLit s))
  | e => visitChildrenV r fuel e
termination_by (fuel, sizeOf e, 1)

/-- The fall-through to `visit_mut_children_with` (line 174) applied to a
subtree freshly substituted by the member-access branch; consumes one unit
of fuel because the substituted tree is not a subterm of the input. -/
def visitReplV (r : EnvReplacerV) (fuel : Nat) (repl : JExpr) : Option JExpr :=
  match fuel with
  | 0 => none
  | f + 1 => visitChildrenV r f repl
termination_by (fuel, 0, 0)

/-- Default `visit_mut_children_with` traversal for `Expr`: every child
expression is visited with `visit_mut_expr`.  `MemberProp::Ident` and
`MemberProp::PrivateName` contain no child expression (their identifier is
visited only by `visit_mut_ident`, which `EnvReplacer` does not override). -/
def visitChildrenV (r : EnvReplacerV) (fuel : Nat) (e : JExpr) : Option JExpr :=
  match e with
  | .ident sym ctxt => some (.ident sym ctxt)
  | .boolLit b => some (.boolLit b)
  | .numLit n => some (.numLit n)
  | .strLit s => some (.strLit s)
  | .nullLit => some .nullLit
  | .metaProp => some .metaProp
  | .array es => (visitListV r fuel es).map .array
  | .object ps => (visitPropsV r fuel ps).map .object
  | .memberI o s c => (visitV r fuel o).map (fun o2 => .memberI o2 s c)
  | .memberC o p => do
      let o2 ← visitV r fuel o
      let p2 ← visitV r fuel p
      return .memberC o2 p2
  | .memberP o s c => (visitV r fuel o).map (fun o2 => .memberP o2 s c)
  | .call f args => do
      let f2 ← visitV r fuel f
      let args2 ← visitListV r fuel args
      return .call f2 args2
termination_by (fuel, sizeOf e, 0)

/-- Children traversal of an expression list. -/
def visitListV (r : EnvReplacerV) (fuel : Nat) (es : JExprList) :
    Option JExprList :=
  match es with
  | .nil => some .nil
  | .cons e rest => do
      let e2 ← visitV r fuel e
      let rest2 ← visitListV r fuel rest
      return .cons e2 rest2
termination_by (fuel, sizeOf es, 0)

/-- Children traversal of object properties: the value of a key/value
property is a child expression; the `PropName::Ident` key is not. -/
def visitPropsV (r : EnvReplacerV) (fuel : Nat) (ps : JPropList) :
    Option JPropList :=
  match ps with
  | .nil => some .nil
  | .cons k v rest => do
      let v2 ← visitV r fuel v
      let rest2 ← visitPropsV r fuel rest
      return .cons k v2 rest2
termination_by (fuel, sizeOf ps, 0)
end

/-- The `EnvReplacer` visitor of transformers/transform_env_replacer.rs: the
shadow test uses a collected set of declared `Id`s (symbol paired with the
full syntax context) instead of the resolver's unresolved mark. -/
structure EnvReplacerT where
  bindings : List (String × Nat)
  envs : List (String × JExpr)
  metaEnvs : List (String × JExpr)

/-- The `EnvReplacer::new` constructor of transform_env_replacer.rs
(lines 34-54); `bindings` starts empty and is filled by `visit_mut_module`. -/
def mkEnvReplacerT (envs : List (String × JExpr)) (bindings : List (String × Nat)) :
    EnvReplacerT :=
  { bindings := bindings
    envs := envs
    metaEnvs := buildMetaEnvs envs }

/-- The match over `first_obj` in transform_env_replacer.rs lines 100-113. -/
def firstObjEnvsT (r : EnvReplacerT) : JExpr → Option EnvsType
  | .ident sym _ => if sym = "process" then some (.node r.envs) else none
  | .metaProp => some (.browser r.metaEnvs)
  | _ => none

/-- The `expr_with_empty_obj` replacement of transform_env_replacer.rs lines
116-123: a member access whose object is an empty object literal and whose
property is the original property, for the identifier form. -/
def emptyObjMemberI (propSym : String) (propCtxt : Nat) : JExpr :=
  .memberI (.object .nil) propSym propCtxt

/-- The `expr_with_empty_obj` replacement for the computed form. -/
def emptyObjMemberC (propExpr : JExpr) : JExpr :=
  .memberC (.object .nil) propExpr

mutual
/-- The `EnvReplacer::visit_mut_expr` of transform_env_replacer.rs together
with the default children traversal.  It differs from `visitV` in the
identifier branch (membership of `(sym, ctxt)` in the collected `bindings`
set instead of the unresolved-mark test) and in the absent-key replacement
(`expr_with_empty_obj` instead of the `undefined` identifier). -/
def visitT (r : EnvReplacerT) (fuel : Nat) (e : JExpr) : Option JExpr :=
  match e with
  | .ident sym ctxt =>
      if (sym, ctxt) ∈ r.bindings then some (.ident sym ctxt)
      else
        match lookupEnv r.envs sym with
        | some env => some env
        | none => some (.ident sym ctxt)
  | .memberI (.memberI firstObj "env" oc) propSym propCtxt =>
      match firstObjEnvsT r firstObj with
      | some envs =>
          visitReplT r fuel
            (match getEnv envs propSym with
             | some env => env
             | none => emptyObjMemberI propSym propCtxt)
      | none =>
          visitChildrenT r fuel
            (.memberI (.memberI firstObj "env" oc) propSym propCtxt)
  | .memberI .metaProp "env" _propCtxt =>
      visitReplT r fuel (.object (propsOfList r.metaEnvs))
  | .memberC (.memberI firstObj "env" oc) (.strLit s) =>
      match firstObjEnvsT r firstObj with
      | some envs =>
          visitReplT r fuel
            (match getEnv envs s with
             | some env => env
             | none => emptyObjMemberC (.strLit s))
      | none =>
          visitChildrenT r fuel
            (.memberC (.memberI firstObj "env" oc) (.strLit s))
  | e => visitChildrenT r fuel e
termination_by (fuel, sizeOf e, 1)

/-- Children visit of a freshly substituted subtree (fall-through at
line 182 of transform_env_replacer.rs). -/
def visitReplT (r : EnvReplacerT) (fuel : Nat) (repl : JExpr) : Option JExpr :=
  match fuel with
  | 0 => none
  | f + 1 => visitChildrenT r f repl
termination_by (fuel, 0, 0)

/-- Default children traversal for the transformer variant. -/
def visitChildrenT (r : EnvReplacerT) (fuel : Nat) (e : JExpr) : Option JExpr :=
  match e with
  | .ident sym ctxt => some (.ident sym ctxt)
  | .boolLit b => some (.boolLit b)
  | .numLit n => some (.numLit n)
  | .strLit s => some (.strLit s)
  | .nullLit => some .nullLit
  | .metaProp => some .metaProp
  | .array es => (visitListT r fuel es).map .array
  | .object ps => (visitPropsT r fuel ps).map .object
  | .memberI o s c => (visitT r fuel o).map (fun o2 => .memberI o2 s c)
  | .memberC o p => do
      let o2 ← visitT r fuel o
      let p2 ← visitT r fuel p
      return .memberC o2 p2
  | .memberP o s c => (visitT r fuel o).map (fun o2 => .memberP o2 s c)
  | .call f args => do
      let f2 ← visitT r fuel f
      let args2 ← visitListT r fuel args
      return .call f2 args2
termination_by (fuel, sizeOf e, 0)

/-- Children traversal of an expression list, transformer variant. -/
def visitListT (r : EnvReplacerT) (fuel : Nat) (es : JExprList) :
    Option JExprList :=
  match es with
  | .nil => some .nil
  | .cons e rest => do
      let e2 ← visitT r fuel e
      let rest2 ← visitListT r fuel rest
      return .cons e2 rest2
termination_by (fuel, sizeOf es, 0)

/-- Children traversal of object properties, transformer variant. -/
def visitPropsT (r : EnvReplacerT) (fuel : Nat) (ps : JPropList) :
    Option JPropList :=
  match ps with
  | .nil => some .nil
  | .cons k v rest => do
      let v2 ← visitT r fuel v
      let rest2 ← visitPropsT r fuel rest
      return .cons k v2 rest2
termination_by (fuel, sizeOf ps, 0)
end

mutual
/-- Property-language helper for claim C1, written from the spec's words:
the identifier-by-identifier substitution that replaces a free identifier
(scope tag equal to the reserved unresolved mark) whose name is a key of the
Environment Map by that key's literal (without re-visiting the replacement)
and leaves every other identifier unchanged, mapping all other constructors
structurally. -/
def substIdents (mark : Nat) (envs : List (String × JExpr)) : JExpr → JExpr
  | .ident sym ctxt =>
      if ctxt = mark then
        match lookupEnv envs sym with
        | some lit => lit
        | none => .ident sym ctxt
      else .ident sym ctxt
  | .boolLit b => .boolLit b
  | .numLit n => .numLit n
  | .strLit s => .strLit s
  | .nullLit => .nullLit
  | .metaProp => .metaProp
  | .array es => .array (substIdentsList mark envs es)
  | .object ps => .object (substIdentsProps mark envs ps)
  | .memberI o s c => .memberI (substIdents mark envs o) s c
  | .memberC o p => .memberC (substIdents mark envs o) (substIdents mark envs p)
  | .memberP o s c => .memberP (substIdents mark envs o) s c
  | .call f args => .call (substIdents mark envs f) (substIdentsList mark envs args)

/-- Elementwise `substIdents` on expression lists. -/
def substIdentsList (mark : Nat) (envs : List (String × JExpr)) :
    JExprList → JExprList
  | .nil => .nil
  | .cons e rest =>
      .cons (substIdents mark envs e) (substIdentsList mark envs rest)

/-- Valuewise `substIdents` on object properties. -/
def substIdentsProps (mark : Nat) (envs : List (String × JExpr)) :
    JPropList → JPropList
  | .nil => .nil
  | .cons k v rest =>
      .cons k (substIdents mark envs v) (substIdentsProps mark envs rest)
end

mutual
/-- True when the expression contains no member access (and hence none of
the `process.env` / `import.meta.env` member-access rewrite rules can fire
anywhere inside it). -/
def memberFree : JExpr → Bool
  | .ident _ _ => true
  | .boolLit _ => true
  | .numLit _ => true
  | .strLit _ => true
  | .nullLit => true
  | .metaProp => true
  | .array es => memberFreeList es
  | .object ps => memberFreeProps ps
  | .memberI _ _ _ => false
  | .memberC _ _ => false
  | .memberP _ _ _ => false
  | .call f args => memberFree f && memberFreeList args

/-- `memberFree` on expression lists. -/
def memberFreeList : JExprList → Bool
  | .nil => true
  | .cons e rest => memberFree e && memberFreeList rest

/-- `memberFree` on object properties. -/
def memberFreeProps : JPropList → Bool
  | .nil => true
  | .cons _ v rest => memberFree v && memberFreeProps rest
end

mutual
/-- True for plain literal trees: built only from boolean, number, string
and null literals, arrays and objects of such.  These are the trees
`get_env_expr` builds from non-string configuration values; they contain no
identifier and no member access, so both replacers leave them unchanged. -/
def plainLit : JExpr → Bool
  | .boolLit _ => true
  | .numLit _ => true
  | .strLit _ => true
  | .nullLit => true
  | .array es => plainLitList es
  | .object ps => plainLitProps ps
  | _ => false

/-- `plainLit` on expression lists. -/
def plainLitList : JExprList → Bool
  | .nil => true
  | .cons e rest => plainLit e && plainLitList rest

/-- `plainLit` on object properties. -/
def plainLitProps : JPropList → Bool
  | .nil => true
  | .cons _ v rest => plainLit v && plainLitProps rest
end

theorem lookupEnv_filter_ne (m : List (String × JExpr)) (k k' : String)
    (hne : k' ≠ k) :
    lookupEnv (m.filter (fun p => p.1 ≠ k)) k' = lookupEnv m k' := by
  simp only [ne_eq, decide_not]
  induction m with
  | nil => simp [lookupEnv]
  | cons p rest ih =>
      by_cases hp : p.1 = k
      · have hpk : ¬p.1 = k' := fun hh => hne (hh.symm.trans hp)
        have hkk : ¬k = k' := fun hh => hne hh.symm
        simp [lookupEnv, hp, hpk, hkk, ih]
      · simp [lookupEnv, hp]
        by_cases hk : p.1 = k'
        · simp [lookupEnv, hk]
        · simp [lookupEnv, hk, ih]

theorem lookupEnv_append (m1 m2 : List (String × JExpr)) (k : String) :
    lookupEnv (m1 ++ m2) k =
      (lookupEnv m1 k).orElse (fun _ => lookupEnv m2 k) := by
  induction m1 with
  | nil => simp [lookupEnv]
  | cons p rest ih =>
      by_cases hp : p.1 = k <;> simp [lookupEnv, hp, ih]

theorem lookupEnv_filter_self (m : List (String × JExpr)) (k : String) :
    lookupEnv (m.filter (fun p => p.1 ≠ k)) k = none := by
  simp only [ne_eq, decide_not]
  induction m with
  | nil => simp [lookupEnv]
  | cons p rest ih =>
      by_cases hp : p.1 = k
      · simp [hp, ih]
      · simp [lookupEnv, hp, ih]

theorem lookupEnv_insertEnv (m : List (String × JExpr)) (k k' : String)
    (v : JExpr) :
    lookupEnv (insertEnv m k v) k' =
      if k' = k then some v else lookupEnv m k' := by
  by_cases hk : k' = k
  · subst hk
    rw [insertEnv, lookupEnv_append, lookupEnv_filter_self m k']
    simp [lookupEnv]
  · rw [insertEnv, lookupEnv_append, lookupEnv_filter_ne m k k' hk]
    have hk2 : ¬k = k' := fun hh => hk hh.symm
    cases h : lookupEnv m k' <;> simp [lookupEnv, hk, hk2, h]

theorem buildMetaEnvs_NODE_ENV_none (envs : List (String × JExpr)) :
    lookupEnv (buildMetaEnvs envs) "NODE_ENV" = none := by
  have main :
      ∀ (l : List (String × JExpr)) (acc : List (String × JExpr)),
        lookupEnv acc "NODE_ENV" = none →
        lookupEnv
          (l.foldl
            (fun acc p =>
              insertEnv acc (if p.1 = "NODE_ENV" then "MODE" else p.1) p.2)
            acc) "NODE_ENV" = none := by
    intro l
    induction l with
    | nil => intro acc hacc; simpa using hacc
    | cons p rest ih =>
        intro acc hacc
        simp only [List.foldl_cons]
        apply ih
        rw [lookupEnv_insertEnv]
        by_cases hp : p.1 = "NODE_ENV"
        · simp [hp, hacc]
        · have hp2 : ¬"NODE_ENV" = p.1 := fun hh => hp hh.symm
          simp [hp, hp2, hacc]
  exact main envs [] (by simp [lookupEnv])

mutual
theorem visitV_plainLit (r : EnvReplacerV) (fuel : Nat) (e : JExpr)
    (h : plainLit e = true) : visitV r fuel e = some e := by
  cases e with
  | boolLit b => simp [visitV, visitChildrenV]
  | numLit n => simp [visitV, visitChildrenV]
  | strLit s => simp [visitV, visitChildrenV]
  | nullLit => simp [visitV, visitChildrenV]
  | array es =>
      have := visitListV_plainLit r fuel es (by simpa [plainLit] using h)
      simp [visitV, visitChildrenV, this]
  | object ps =>
      have := visitPropsV_plainLit r fuel ps (by simpa [plainLit] using h)
      simp [visitV, visitChildrenV, this]
  | ident sym ctxt => simp [plainLit] at h
  | metaProp => simp [plainLit] at h
  | memberI o s c => simp [plainLit] at h
  | memberC o p => simp [plainLit] at h
  | memberP o s c => simp [plainLit] at h
  | call f args => simp [plainLit] at h

theorem visitListV_plainLit (r : EnvReplacerV) (fuel : Nat) (es : JExprList)
    (h : plainLitList es = true) : visitListV r fuel es = some es := by
  cases es with
  | nil => simp [visitListV]
  | cons e rest =>
      have h1 : plainLit e = true := by
        have := h; simp [plainLitList] at this; exact this.1
      have h2 : plainLitList rest = true := by
        have := h; simp [plainLitList] at this; exact this.2
      simp [visitListV, visitV_plainLit r fuel e h1,
        visitListV_plainLit r fuel rest h2]

theorem visitPropsV_plainLit (r : EnvReplacerV) (fuel : Nat) (ps : JPropList)
    (h : plainLitProps ps = true) : visitPropsV r fuel ps = some ps := by
  cases ps with
  | nil => simp [visitPropsV]
  | cons k v rest =>
      have h1 : plainLit v = true := by
        have := h; simp [plainLitProps] at this; exact this.1
      have h2 : plainLitProps rest = true := by
        have := h; simp [plainLitProps] at this; exact this.2
      simp [visitPropsV, visitV_plainLit r fuel v h1,
        visitPropsV_plainLit r fuel rest h2]
end

mutual
theorem visitT_plainLit (r : EnvReplacerT) (fuel : Nat) (e : JExpr)
    (h : plainLit e = true) : visitT r fuel e = some e := by
  cases e with
  | boolLit b => simp [visitT, visitChildrenT]
  | numLit n => simp [visitT, visitChildrenT]
  | strLit s => simp [visitT, visitChildrenT]
  | nullLit => simp [visitT, visitChildrenT]
  | array es =>
      have := visitListT_plainLit r fuel es (by simpa [plainLit] using h)
      simp [visitT, visitChildrenT, this]
  | object ps =>
      have := visitPropsT_plainLit r fuel ps (by simpa [plainLit] using h)
      simp [visitT, visitChildrenT, this]
  | ident sym ctxt => simp [plainLit] at h
  | metaProp => simp [plainLit] at h
  | memberI o s c => simp [plainLit] at h
  | memberC o p => simp [plainLit] at h
  | memberP o s c => simp [plainLit] at h
  | call f args => simp [plainLit] at h

theorem visitListT_plainLit (r : EnvReplacerT) (fuel : Nat) (es : JExprList)
    (h : plainLitList es = true) : visitListT r fuel es = some es := by
  cases es with
  | nil => simp [visitListT]
  | cons e rest =>
      have h1 : plainLit e = true := by
        have := h; simp [plainLitList] at this; exact this.1
      have h2 : plainLitList rest = true := by
        have := h; simp [plainLitList] at this; exact this.2
      simp [visitListT, visitT_plainLit r fuel e h1,
        visitListT_plainLit r fuel rest h2]

theorem visitPropsT_plainLit (r : EnvReplacerT) (fuel : Nat) (ps : JPropList)
    (h : plainLitProps ps = true) : visitPropsT r fuel ps = some ps := by
  cases ps with
  | nil => simp [visitPropsT]
  | cons k v rest =>
      have h1 : plainLit v = true := by
        have := h; simp [plainLitProps] at this; exact this.1
      have h2 : plainLitProps rest = true := by
        have := h; simp [plainLitProps] at this; exact this.2
      simp [visitPropsT, visitT_plainLit r fuel v h1,
        visitPropsT_plainLit r fuel rest h2]
end

mutual
theorem visitV_memberFree (envs : List (String × JExpr)) (mark fuel : Nat)
    (e : JExpr) (h : memberFree e = true) :
    visitV (mkEnvReplacerV envs mark) fuel e =
      some (substIdents mark envs e) := by
  cases e with
  | ident sym ctxt =>
      by_cases hc : ctxt = mark
      · cases hl : lookupEnv envs sym <;>
          simp [visitV, substIdents, mkEnvReplacerV, hc, hl]
      · simp [visitV, substIdents, mkEnvReplacerV, hc]
  | boolLit b => simp [visitV, visitChildrenV, substIdents]
  | numLit n => simp [visitV, visitChildrenV, substIdents]
  | strLit s => simp [visitV, visitChildrenV, substIdents]
  | nullLit => simp [visitV, visitChildrenV, substIdents]
  | metaProp => simp [visitV, visitChildrenV, substIdents]
  | array es =>
      have := visitListV_memberFree envs mark fuel es
        (by simpa [memberFree] using h)
      simp [visitV, visitChildrenV, substIdents, this]
  | object ps =>
      have := visitPropsV_memberFree envs mark fuel ps
        (by simpa [memberFree] using h)
      simp [visitV, visitChildrenV, substIdents, this]
  | memberI o s c => simp [memberFree] at h
  | memberC o p => simp [memberFree] at h
  | memberP o s c => simp [memberFree] at h
  | call f args =>
      have hf : memberFree f = true := by
        have := h; simp [memberFree] at this; exact this.1
      have ha : memberFreeList args = true := by
        have := h; simp [memberFree] at this; exact this.2
      simp [visitV, visitChildrenV, substIdents,
        visitV_memberFree envs mark fuel f hf,
        visitListV_memberFree envs mark fuel args ha]

theorem visitListV_memberFree (envs : List (String × JExpr)) (mark fuel : Nat)
    (es : JExprList) (h : memberFreeList es = true) :
    visitListV (mkEnvReplacerV envs mark) fuel es =
      some (substIdentsList mark envs es) := by
  cases es with
  | nil => simp [visitListV, substIdentsList]
  | cons e rest =>
      have h1 : memberFree e = true := by
        have := h; simp [memberFreeList] at this; exact this.1
      have h2 : memberFreeList rest = true := by
        have := h; simp [memberFreeList] at this; exact this.2
      simp [visitListV, substIdentsList,
        visitV_memberFree envs mark fuel e h1,
        visitListV_memberFree envs mark fuel rest h2]

theorem visitPropsV_memberFree (envs : List (String × JExpr)) (mark fuel : Nat)
    (ps : JPropList) (h : memberFreeProps ps = true) :
    visitPropsV (mkEnvReplacerV envs mark) fuel ps =
      some (substIdentsProps mark envs ps) := by
  cases ps with
  | nil => simp [visitPropsV, substIdentsProps]
  | cons k v rest =>
      have h1 : memberFree v = true := by
        have := h; simp [memberFreeProps] at this; exact this.1
      have h2 : memberFreeProps rest = true := by
        have := h; simp [memberFreeProps] at this; exact this.2
      simp [visitPropsV, substIdentsProps,
        visitV_memberFree envs mark fuel v h1,
        visitPropsV_memberFree envs mark fuel rest h2]
end

/-- Import specifiers of an `ImportDecl`: default, named (with optional
`imported` name) and star (namespace) imports.  The local identifier carries
its syntax context; the optional `imported` name of a named specifier is a
`ModuleExportName` identifier carrying the empty context. -/
inductive ImportSpec where
  | defaultSpec (localSym : String) (localCtxt : Nat)
  | namedSpec (localSym : String) (localCtxt : Nat) (imported : Option String)
  | starSpec (localSym : String) (localCtxt : Nat)
  deriving DecidableEq

/-- Export specifiers of a `NamedExport`: `named` is
`ExportSpecifier::Named { orig, exported }` (`export { orig as exported }`),
`nspace` is `ExportSpecifier::Namespace`, `dflt` is
`ExportSpecifier::Default`. -/
inductive ExportSpec where
  | named (origSym : String) (origCtxt : Nat) (exported : Option (String × Nat))
  | nspace (sym : String) (ctxt : Nat)
  | dflt (sym : String) (ctxt : Nat)
  deriving DecidableEq

/-- Statements: expression statements and single-declarator `var`
declarations binding a plain identifier pattern (the shape synthesized by
`Inject::into_require_with`). -/
inductive Stmt where
  | exprStmt (e : JExpr)
  | varDecl (sym : String) (ctxt : Nat) (init : Option JExpr)
  deriving DecidableEq

/-- A `ModuleItem`: either a statement (`ModuleItem::Stmt`) or one of the
module declarations handled by the passes (`ImportDecl`, `NamedExport`). -/
inductive Item where
  | stmt (s : Stmt)
  | importDecl (specifiers : List ImportSpec) (src : String)
  | namedExport (specifiers : List ExportSpec) (src : Option String)
  deriving DecidableEq

/-- Elementwise effectful map over a list, short-circuiting on `none`
(monadic `mapM` over `Option`, written recursively so that it computes by
`decide`). -/
def mapMOpt {α β : Type} (f : α → Option β) : List α → Option (List β)
  | [] => some []
  | a :: rest => do
      let b ← f a
      let bs ← mapMOpt f rest
      return b :: bs

/-- Application of the tag-based env replacer to one statement: the visitor
walk reaches every expression held by the statement. -/
def applyStmtV (r : EnvReplacerV) (fuel : Nat) : Stmt → Option Stmt
  | .exprStmt e => (visitV r fuel e).map .exprStmt
  | .varDecl s c none => some (.varDecl s c none)
  | .varDecl s c (some e) =>
      (visitV r fuel e).map (fun e2 => .varDecl s c (some e2))

/-- Application of the tag-based env replacer to one module item; import and
export declarations hold no expressions. -/
def applyItemV (r : EnvReplacerV) (fuel : Nat) : Item → Option Item
  | .stmt s => (applyStmtV r fuel s).map .stmt
  | .importDecl specs src => some (.importDecl specs src)
  | .namedExport specs src => some (.namedExport specs src)

/-- The tag-based environment substitution pass
(visitors/env_replacer.rs) applied to a whole module body. -/
def applyModuleV (envs : List (String × JExpr)) (unresolvedMark fuel : Nat)
    (items : List Item) : Option (List Item) :=
  mapMOpt (applyItemV (mkEnvReplacerV envs unresolvedMark) fuel) items

/-- Modelled from the spec: the swc utility `collect_decls` used by
`visit_mut_module` of transform_env_replacer.rs (its source is outside this
repository).  Per the spec's description of the declaration-set variant, it
gathers the `Id` (symbol, syntax context) of every binding introduced by a
declaration: variable declarators and import specifier locals; export
specifiers and expression statements declare nothing. -/
def collectDeclsItem : Item → List (String × Nat)
  | .stmt (.varDecl s c _) => [(s, c)]
  | .stmt (.exprStmt _) => []
  | .importDecl specs _ =>
      specs.map (fun sp =>
        match sp with
        | .defaultSpec s c => (s, c)
        | .namedSpec s c _ => (s, c)
        | .starSpec s c => (s, c))
  | .namedExport _ _ => []

/-- Application of the declaration-set env replacer to one statement. -/
def applyStmtT (r : EnvReplacerT) (fuel : Nat) : Stmt → Option Stmt
  | .exprStmt e => (visitT r fuel e).map .exprStmt
  | .varDecl s c none => some (.varDecl s c none)
  | .varDecl s c (some e) =>
      (visitT r fuel e).map (fun e2 => .varDecl s c (some e2))

/-- Application of the declaration-set env replacer to one module item. -/
def applyItemT (r : EnvReplacerT) (fuel : Nat) : Item → Option Item
  | .stmt s => (applyStmtT r fuel s).map .stmt
  | .importDecl specs src => some (.importDecl specs src)
  | .namedExport specs src => some (.namedExport specs src)

/-- The declaration-set environment substitution pass
(transform_env_replacer.rs) applied to a whole module body: its
`visit_mut_module` first collects the module's declared bindings, then
walks the items. -/
def applyModuleT (envs : List (String × JExpr)) (fuel : Nat)
    (items : List Item) : Option (List Item) :=
  mapMOpt
    (applyItemT (mkEnvReplacerT envs (items.flatMap collectDeclsItem)) fuel)
    items

theorem visitChildrenV_plainLit (r : EnvReplacerV) (fuel : Nat) (e : JExpr)
    (h : plainLit e = true) : visitChildrenV r fuel e = some e := by
  cases e with
  | boolLit b => simp [visitChildrenV]
  | numLit n => simp [visitChildrenV]
  | strLit s => simp [visitChildrenV]
  | nullLit => simp [visitChildrenV]
  | array es =>
      have := visitListV_plainLit r fuel es (by simpa [plainLit] using h)
      simp [visitChildrenV, this]
  | object ps =>
      have := visitPropsV_plainLit r fuel ps (by simpa [plainLit] using h)
      simp [visitChildrenV, this]
  | ident sym ctxt => simp [plainLit] at h
  | metaProp => simp [plainLit] at h
  | memberI o s c => simp [plainLit] at h
  | memberC o p => simp [plainLit] at h
  | memberP o s c => simp [plainLit] at h
  | call f args => simp [plainLit] at h

theorem visitChildrenT_plainLit (r : EnvReplacerT) (fuel : Nat) (e : JExpr)
    (h : plainLit e = true) : visitChildrenT r fuel e = some e := by
  cases e with
  | boolLit b => simp [visitChildrenT]
  | numLit n => simp [visitChildrenT]
  | strLit s => simp [visitChildrenT]
  | nullLit => simp [visitChildrenT]
  | array es =>
      have := visitListT_plainLit r fuel es (by simpa [plainLit] using h)
      simp [visitChildrenT, this]
  | object ps =>
      have := visitPropsT_plainLit r fuel ps (by simpa [plainLit] using h)
      simp [visitChildrenT, this]
  | ident sym ctxt => simp [plainLit] at h
  | metaProp => simp [plainLit] at h
  | memberI o s c => simp [plainLit] at h
  | memberC o p => simp [plainLit] at h
  | memberP o s c => simp [plainLit] at h
  | call f args => simp [plainLit] at h

/-- Claim C1, counterexample.  With the Environment Map defining the key
`process` as the literal `true` and the tree `process.env.X` in which the
identifier `process` is free (scope tag equal to the unresolved mark 1), the
pass does not replace the free occurrence of `process` by `true` (as the
claim requires for every tree and map); the member-access rule consumes the
whole expression first and rewrites it to the `undefined` identifier. -/
theorem c1_counterexample :
    visitV (mkEnvReplacerV [("process", .boolLit true)] 1) 1
        (.memberI (.memberI (.ident "process" 1) "env" 0) "X" 0) =
      some undefinedIdent ∧
    substIdents 1 [("process", .boolLit true)]
        (.memberI (.memberI (.ident "process" 1) "env" 0) "X" 0) =
      .memberI (.memberI (.boolLit true) "env" 0) "X" 0 ∧
    some undefinedIdent ≠
      some (substIdents 1 [("process", .boolLit true)]
        (.memberI (.memberI (.ident "process" 1) "env" 0) "X" 0)) := by
  refine ⟨?_, by decide, by decide⟩
  simp [visitV, visitReplV, visitChildrenV, mkEnvReplacerV, firstObjEnvs,
    getEnvOrUndefined, getEnv, lookupEnv, undefinedIdent]

/-- Claim C1, amended: on every subtree containing no member-access
expression (so that none of the `process.env` / `import.meta.env`
member-access rules can consume an identifier occurrence first), the
tag-based environment substitution pass acts exactly as the claim's
identifier substitution `substIdents`: a free identifier (scope tag equal to
the unresolved mark) whose name is a key of the Environment Map becomes that
key's literal tree, and every bound identifier of the same name is left
unchanged. -/
theorem c1_theorem (envs : List (String × JExpr)) (mark fuel : Nat)
    (e : JExpr) (h : memberFree e = true) :
    visitV (mkEnvReplacerV envs mark) fuel e =
      some (substIdents mark envs e) :=
  visitV_memberFree envs mark fuel e h

/-- Witness for `c1_theorem`: the spec's scenario `log(A)` with map
`A -> true`; the free `A` is replaced, the free `log` (no map key) and the
scenario with a bound `A` are left unchanged. -/
theorem c1_witness :
    memberFree (.call (.ident "log" 1) (.cons (.ident "A" 1) .nil)) = true ∧
    visitV (mkEnvReplacerV [("A", .boolLit true)] 1) 0
        (.call (.ident "log" 1) (.cons (.ident "A" 1) .nil)) =
      some (.call (.ident "log" 1) (.cons (.boolLit true) .nil)) ∧
    visitV (mkEnvReplacerV [("A", .boolLit true)] 1) 0
        (.call (.ident "log" 1) (.cons (.ident "A" 7) .nil)) =
      some (.call (.ident "log" 1) (.cons (.ident "A" 7) .nil)) := by
  refine ⟨by decide, ?_, ?_⟩
  · rw [c1_theorem [("A", .boolLit true)] 1 0
      (.call (.ident "log" 1) (.cons (.ident "A" 1) .nil)) (by decide)]
    decide
  · rw [c1_theorem [("A", .boolLit true)] 1 0
      (.call (.ident "log" 1) (.cons (.ident "A" 7) .nil)) (by decide)]
    decide

/-- Claim C2, counterexample.  With the Environment Map defining
`NODE_ENV -> true`, the meta map built by `EnvReplacer::new` renames the key
to `MODE`, so `import.meta.env.NODE_ENV` rewrites to the `undefined`
identifier while `process.env.NODE_ENV` (and `import.meta.env.MODE`) rewrite
to `true`: the two do not yield the same literal, contradicting the claim. -/
theorem c2_counterexample :
    visitV (mkEnvReplacerV [("NODE_ENV", .boolLit true)] 1) 1
        (.memberI (.memberI .metaProp "env" 0) "NODE_ENV" 0) =
      some undefinedIdent ∧
    visitV (mkEnvReplacerV [("NODE_ENV", .boolLit true)] 1) 1
        (.memberI (.memberI (.ident "process" 1) "env" 0) "NODE_ENV" 0) =
      some (.boolLit true) ∧
    visitV (mkEnvReplacerV [("NODE_ENV", .boolLit true)] 1) 1
        (.memberI (.memberI .metaProp "env" 0) "MODE" 0) =
      some (.boolLit true) ∧
    undefinedIdent ≠ JExpr.boolLit true := by
  refine ⟨?_, ?_, ?_, by decide⟩ <;>
    simp [visitV, visitReplV, visitChildrenV, mkEnvReplacerV, buildMetaEnvs,
      insertEnv, firstObjEnvs, getEnvOrUndefined, getEnv, lookupEnv,
      undefinedIdent]

/-- Claim C2, amended: when the Environment Map defines `NODE_ENV` with an
inert literal and the derived meta map carries that literal under `MODE`,
then `process.env.NODE_ENV` and `import.meta.env.MODE` rewrite to that same
literal, while `import.meta.env.NODE_ENV` rewrites to the `undefined`
identifier (the meta map renames `NODE_ENV` to `MODE`, so it never contains
the key `NODE_ENV`). -/
theorem c2_theorem (envs : List (String × JExpr)) (lit : JExpr)
    (mark fuel pc ce cn ce2 cm ce3 cn2 : Nat)
    (hnode : lookupEnv envs "NODE_ENV" = some lit)
    (hmode : lookupEnv (buildMetaEnvs envs) "MODE" = some lit)
    (hplain : plainLit lit = true) :
    visitV (mkEnvReplacerV envs mark) (fuel + 1)
        (.memberI (.memberI (.ident "process" pc) "env" ce) "NODE_ENV" cn) =
      some lit ∧
    visitV (mkEnvReplacerV envs mark) (fuel + 1)
        (.memberI (.memberI .metaProp "env" ce2) "MODE" cm) =
      some lit ∧
    visitV (mkEnvReplacerV envs mark) (fuel + 1)
        (.memberI (.memberI .metaProp "env" ce3) "NODE_ENV" cn2) =
      some undefinedIdent := by
  refine ⟨?_, ?_, ?_⟩
  · have hch := visitChildrenV_plainLit (mkEnvReplacerV envs mark) fuel lit hplain
    simp only [mkEnvReplacerV] at hch
    simp [visitV, visitReplV, firstObjEnvs, getEnvOrUndefined, getEnv,
      mkEnvReplacerV, hnode, hch]
  · have hch := visitChildrenV_plainLit (mkEnvReplacerV envs mark) fuel lit hplain
    simp only [mkEnvReplacerV] at hch
    simp [visitV, visitReplV, firstObjEnvs, getEnvOrUndefined, getEnv,
      mkEnvReplacerV, hmode, hch]
  · have hn := buildMetaEnvs_NODE_ENV_none envs
    simp [visitV, visitReplV, visitChildrenV, firstObjEnvs, getEnvOrUndefined,
      getEnv, mkEnvReplacerV, hn, undefinedIdent]

/-- Witness for `c2_theorem` at the map `NODE_ENV -> true`. -/
theorem c2_witness :
    lookupEnv [("NODE_ENV", .boolLit true)] "NODE_ENV" =
      some (.boolLit true) ∧
    lookupEnv (buildMetaEnvs [("NODE_ENV", .boolLit true)]) "MODE" =
      some (.boolLit true) ∧
    plainLit (.boolLit true) = true ∧
    visitV (mkEnvReplacerV [("NODE_ENV", .boolLit true)] 1) 1
        (.memberI (.memberI .metaProp "env" 0) "MODE" 0) =
      some (.boolLit true) := by
  refine ⟨by decide, by decide, by decide, ?_⟩
  exact (c2_theorem [("NODE_ENV", .boolLit true)] (.boolLit true)
    1 0 0 0 0 0 0 0 0 (by decide) (by decide) (by decide)).2.1

/-- Claim C3, counterexample.  With the Environment Map defining
`FOO -> true` and the tree `process.env.FOO` in which the identifier
`process` is bound (scope tag 0, distinct from the unresolved mark 1), the
pass still rewrites the member access to the literal: the claim's
"only when `process` resolves as free" fails because `visit_mut_expr`
matches `first_obj` on the symbol `process` alone and never inspects its
syntax context. -/
theorem c3_counterexample :
    visitV (mkEnvReplacerV [("FOO", .boolLit true)] 1) 1
        (.memberI (.memberI (.ident "process" 0) "env" 0) "FOO" 0) =
      some (.boolLit true) ∧
    some (JExpr.boolLit true) ≠
      some (JExpr.memberI (.memberI (.ident "process" 0) "env" 0) "FOO" 0) := by
  refine ⟨?_, by decide⟩
  simp [visitV, visitReplV, visitChildrenV, mkEnvReplacerV, firstObjEnvs,
    getEnvOrUndefined, getEnv, lookupEnv]

/-- Claim C3, amended: a member access `process.env.<NAME>` or
`process.env["<NAME>"]` is rewritten whenever its object is an identifier
named `process`, regardless of that identifier's scope tag; the rewrite
yields the Environment Map literal when the key is present (stated here for
inert literals) and the `undefined` identifier when it is absent. -/
theorem c3_theorem (envs : List (String × JExpr))
    (mark fuel pc ce cn : Nat) (name : String) :
    (lookupEnv envs name = none →
      visitV (mkEnvReplacerV envs mark) (fuel + 1)
          (.memberI (.memberI (.ident "process" pc) "env" ce) name cn) =
        some undefinedIdent ∧
      visitV (mkEnvReplacerV envs mark) (fuel + 1)
          (.memberC (.memberI (.ident "process" pc) "env" ce) (.strLit name)) =
        some undefinedIdent) ∧
    (∀ lit : JExpr, lookupEnv envs name = some lit → plainLit lit = true →
      visitV (mkEnvReplacerV envs mark) (fuel + 1)
          (.memberI (.memberI (.ident "process" pc) "env" ce) name cn) =
        some lit ∧
      visitV (mkEnvReplacerV envs mark) (fuel + 1)
          (.memberC (.memberI (.ident "process" pc) "env" ce) (.strLit name)) =
        some lit) := by
  constructor
  · intro hnone
    constructor <;>
      simp [visitV, visitReplV, visitChildrenV, mkEnvReplacerV, firstObjEnvs,
        getEnvOrUndefined, getEnv, hnone, undefinedIdent]
  · intro lit hsome hplain
    have hch := visitChildrenV_plainLit (mkEnvReplacerV envs mark) fuel lit hplain
    simp only [mkEnvReplacerV] at hch
    constructor <;>
      simp [visitV, visitReplV, mkEnvReplacerV, firstObjEnvs,
        getEnvOrUndefined, getEnv, hsome, hch]

/-- Witness for `c3_theorem`: the spec's scenario
`process.env.UNDEFINED_ENV` over the empty map rewrites to `undefined`, and
`process.env.FOO` over `FOO -> true` rewrites to `true` even though the
`process` identifier used here carries the bound tag 0. -/
theorem c3_witness :
    lookupEnv [] "UNDEFINED_ENV" = none ∧
    visitV (mkEnvReplacerV [] 1) 1
        (.memberI (.memberI (.ident "process" 1) "env" 0) "UNDEFINED_ENV" 0) =
      some undefinedIdent ∧
    visitV (mkEnvReplacerV [("FOO", .boolLit true)] 1) 1
        (.memberI (.memberI (.ident "process" 0) "env" 0) "FOO" 0) =
      some (.boolLit true) := by
  refine ⟨by decide, ?_, ?_⟩
  · exact ((c3_theorem [] 1 0 1 0 0 "UNDEFINED_ENV").1 (by decide)).1
  · exact (((c3_theorem [("FOO", .boolLit true)] 1 0 0 0 0 "FOO").2
      (.boolLit true) (by decide) (by decide))).1

/-- Claim C10, counterexample.  On the one-statement module
`process.env.MISSING;` with the empty Environment Map, the tag-based pass
(visitors/env_replacer.rs) rewrites the access to the `undefined`
identifier, while the declaration-set pass (transform_env_replacer.rs)
rewrites it to a member access on an empty object literal: the two rewritten
trees differ. -/
theorem c10_counterexample :
    applyModuleV [] 1 1
        [.stmt (.exprStmt
          (.memberI (.memberI (.ident "process" 1) "env" 0) "MISSING" 0))] =
      some [.stmt (.exprStmt undefinedIdent)] ∧
    applyModuleT [] 1
        [.stmt (.exprStmt
          (.memberI (.memberI (.ident "process" 1) "env" 0) "MISSING" 0))] =
      some [.stmt (.exprStmt (.memberI (.object .nil) "MISSING" 0))] ∧
    some [Item.stmt (.exprStmt undefinedIdent)] ≠
      some [Item.stmt (.exprStmt (.memberI (.object .nil) "MISSING" 0))] := by
  refine ⟨?_, ?_, by decide⟩
  · simp [applyModuleV, mapMOpt, applyItemV, applyStmtV, visitV, visitReplV,
      visitChildrenV, mkEnvReplacerV, firstObjEnvs, getEnvOrUndefined,
      getEnv, lookupEnv, undefinedIdent]
  · simp [applyModuleT, mapMOpt, applyItemT, applyStmtT, collectDeclsItem,
      visitT, visitReplT, visitChildrenT, visitPropsT, visitListT,
      mkEnvReplacerT, firstObjEnvsT, getEnv, lookupEnv, emptyObjMemberI]

/-- Claim C10, amended: the two environment substitution implementations
agree on `process.env.<NAME>` accesses whose key is present with an inert
literal value (both rewrite to that literal), but they are not identical in
general: for an absent key the tag-based pass yields the `undefined`
identifier and the declaration-set pass yields a member access on an empty
object literal (see `c10_counterexample`); the shadow tests also differ
(resolver mark versus collected declaration set). -/
theorem c10_theorem (envs : List (String × JExpr))
    (bindings : List (String × Nat)) (mark f g pc ce cn : Nat)
    (name : String) (lit : JExpr)
    (hsome : lookupEnv envs name = some lit) (hplain : plainLit lit = true) :
    visitV (mkEnvReplacerV envs mark) (f + 1)
        (.memberI (.memberI (.ident "process" pc) "env" ce) name cn) =
      some lit ∧
    visitT (mkEnvReplacerT envs bindings) (g + 1)
        (.memberI (.memberI (.ident "process" pc) "env" ce) name cn) =
      some lit := by
  constructor
  · have hch := visitChildrenV_plainLit (mkEnvReplacerV envs mark) f lit hplain
    simp only [mkEnvReplacerV] at hch
    simp [visitV, visitReplV, mkEnvReplacerV, firstObjEnvs,
      getEnvOrUndefined, getEnv, hsome, hch]
  · have hch := visitChildrenT_plainLit (mkEnvReplacerT envs bindings) g lit
      hplain
    simp only [mkEnvReplacerT] at hch
    simp [visitT, visitReplT, mkEnvReplacerT, firstObjEnvsT, getEnv,
      hsome, hch]

/-- Witness for `c10_theorem` at `FOO -> true`. -/
theorem c10_witness :
    lookupEnv [("FOO", .boolLit true)] "FOO" = some (.boolLit true) ∧
    plainLit (.boolLit true) = true ∧
    visitV (mkEnvReplacerV [("FOO", .boolLit true)] 1) 1
        (.memberI (.memberI (.ident "process" 1) "env" 0) "FOO" 0) =
      some (.boolLit true) ∧
    visitT (mkEnvReplacerT [("FOO", .boolLit true)] []) 1
        (.memberI (.memberI (.ident "process" 1) "env" 0) "FOO" 0) =
      some (.boolLit true) := by
  refine ⟨by decide, by decide, ?_⟩
  exact c10_theorem [("FOO", .boolLit true)] [] 1 0 0 1 0 0 "FOO"
    (.boolLit true) (by decide) (by decide)

mutual
/-- Shallow embedding of `serde_json::Value`, the raw configuration values
from which `build_env_map` builds the Environment Map. -/
inductive JValue where
  | str (s : String)
  | boolean (b : Bool)
  | num (n : Int)
  | null
  | arr (items : JValueList)
  | obj (entries : JValueProps)
  deriving DecidableEq

/-- List of configuration values (a JSON array). -/
inductive JValueList where
  | nil
  | cons (head : JValue) (tail : JValueList)
  deriving DecidableEq

/-- Key/value entries of a JSON object. -/
inductive JValueProps where
  | nil
  | cons (key : String) (value : JValue) (tail : JValueProps)
  deriving DecidableEq
end

/-- Result of `get_env_expr` and `build_env_map`: `ok` is `Ok`, `invalid`
is `Err(anyhow!(ConfigError::InvalidateDefineConfig(v)))` carrying the
offending source text. -/
inductive EnvRes (A : Type) where
  | ok (value : A)
  | invalid (source : String)
  deriving DecidableEq

/-- True for `ModuleItem::Stmt(Stmt::Expr(..))`. -/
def isExprStmtItem : Item → Bool
  | .stmt (.exprStmt _) => true
  | _ => false

mutual
/-- The `get_env_expr` function (visitors/env_replacer.rs lines 190-250;
transform_env_replacer.rs lines 198-249 is the same logic).  `parse` is the
external parser of spec section 6, returning the module body or `none` on a
parse error.  A string value is parsed; the parse failure is `.unwrap()`ed
and an empty body hits `body.first().unwrap()`, both Rust panics modelled as
the outer `none`.  When the first item is an expression statement its
expression is returned; any other first item produces the
`InvalidateDefineConfig` error carrying the offending source text.
Booleans, numbers and null map to literals; arrays and objects recurse,
propagating the first error via `?`. -/
def getEnvExpr (parse : String → Option (List Item)) :
    JValue → Option (EnvRes JExpr)
  | .str s =>
      match parse s with
      | none => none
      | some [] => none
      | some (Item.stmt (.exprStmt e) :: _) => some (.ok e)
      | some (_ :: _) => some (.invalid s)
  | .boolean b => some (.ok (.boolLit b))
  | .num n => some (.ok (.numLit n))
  | .null => some (.ok .nullLit)
  | .arr items =>
      match getEnvExprList parse items with
      | none => none
      | some (.invalid e) => some (.invalid e)
      | some (.ok elems) => some (.ok (.array elems))
  | .obj entries =>
      match getEnvExprProps parse entries with
      | none => none
      | some (.invalid e) => some (.invalid e)
      | some (.ok props) => some (.ok (.object props))

/-- Array elements of `get_env_expr`, first error wins. -/
def getEnvExprList (parse : String → Option (List Item)) :
    JValueList → Option (EnvRes JExprList)
  | .nil => some (.ok .nil)
  | .cons v rest =>
      match getEnvExpr parse v with
      | none => none
      | some (.invalid e) => some (.invalid e)
      | some (.ok x) =>
          match getEnvExprList parse rest with
          | none => none
          | some (.invalid e) => some (.invalid e)
          | some (.ok xs) => some (.ok (.cons x xs))

/-- Object entries of `get_env_expr`, first error wins; keys become
`PropName::Ident` keys. -/
def getEnvExprProps (parse : String → Option (List Item)) :
    JValueProps → Option (EnvRes JPropList)
  | .nil => some (.ok .nil)
  | .cons k v rest =>
      match getEnvExpr parse v with
      | none => none
      | some (.invalid e) => some (.invalid e)
      | some (.ok x) =>
          match getEnvExprProps parse rest with
          | none => none
          | some (.invalid e) => some (.invalid e)
          | some (.ok xs) => some (.ok (.cons k x xs))
end

/-- The `build_env_map` loop (visitors/env_replacer.rs lines 178-188):
each configuration entry is converted by `get_env_expr`, the `?` propagating
the first error, and inserted into the map in iteration order. -/
def buildEnvMapGo (parse : String → Option (List Item))
    (acc : List (String × JExpr)) :
    List (String × JValue) → Option (EnvRes (List (String × JExpr)))
  | [] => some (.ok acc)
  | (k, v) :: rest =>
      match getEnvExpr parse v with
      | none => none
      | some (.invalid e) => some (.invalid e)
      | some (.ok expr) => buildEnvMapGo parse (insertEnv acc k expr) rest

/-- The `build_env_map` entry point. -/
def buildEnvMap (parse : String → Option (List Item))
    (cfg : List (String × JValue)) :
    Option (EnvRes (List (String × JExpr))) :=
  buildEnvMapGo parse [] cfg

/-- Modelled from the spec: the external parser (spec section 6) evaluated
at the source text of two expression statements separated by a semicolon,
which is syntactically valid JavaScript whose module body holds two
expression statements; every other input is irrelevant to the
counterexample and is mapped to a parse failure. -/
def parseTwoExprStmts : String → Option (List Item) := fun s =>
  if s = "1;2" then
    some [.stmt (.exprStmt (.numLit 1)), .stmt (.exprStmt (.numLit 2))]
  else none

/-- Modelled from the spec: the external parser evaluated at a variable
declaration, a statement that is not an expression statement. -/
def parseVarStmt : String → Option (List Item) := fun s =>
  if s = "var x = 1" then some [.stmt (.varDecl "x" 0 (some (.numLit 1)))]
  else none

/-- Claim C7, counterexample.  The configuration string value whose source
text parses to two expression statements does not parse to a single
expression statement, yet `get_env_expr` silently coerces it to the first
expression and `build_env_map` succeeds without any "invalid define value"
error, because the code only inspects the first item of the parsed body. -/
theorem c7_counterexample :
    getEnvExpr parseTwoExprStmts (.str "1;2") = some (.ok (.numLit 1)) ∧
    buildEnvMap parseTwoExprStmts [("K", .str "1;2")] =
      some (.ok [("K", .numLit 1)]) := by
  constructor <;> decide

/-- Claim C7, amended: every string value is parsed as source text, and
construction fails with the "invalid define value" error identifying the
offending source text exactly when the parsed body's first item exists and
is not an expression statement (also when the string occurs nested inside an
object value); a body whose first item is an expression statement is
silently coerced to that expression even if further statements follow, and a
parse failure or an empty body panics instead of reaching the error
channel. -/
theorem c7_theorem (parse : String → Option (List Item)) (s : String) :
    (parse s = none → getEnvExpr parse (.str s) = none) ∧
    (parse s = some [] → getEnvExpr parse (.str s) = none) ∧
    (∀ e rest, parse s = some (.stmt (.exprStmt e) :: rest) →
      getEnvExpr parse (.str s) = some (.ok e)) ∧
    (∀ it rest, parse s = some (it :: rest) → isExprStmtItem it = false →
      getEnvExpr parse (.str s) = some (.invalid s)) ∧
    (∀ k it rest, parse s = some (it :: rest) → isExprStmtItem it = false →
      getEnvExpr parse (.obj (.cons k (.str s) .nil)) = some (.invalid s)) ∧
    (∀ k it rest, parse s = some (it :: rest) → isExprStmtItem it = false →
      buildEnvMap parse [(k, .str s)] = some (.invalid s)) := by
  have hbad : ∀ it rest, parse s = some (it :: rest) → isExprStmtItem it = false →
      getEnvExpr parse (.str s) = some (.invalid s) := by
    intro it rest hp hne
    cases it with
    | stmt st =>
        cases st with
        | exprStmt e => simp [isExprStmtItem] at hne
        | varDecl a b c => simp [getEnvExpr, hp]
    | importDecl specs src => simp [getEnvExpr, hp]
    | namedExport specs src => simp [getEnvExpr, hp]
  refine ⟨?_, ?_, ?_, hbad, ?_, ?_⟩
  · intro hp; simp [getEnvExpr, hp]
  · intro hp; simp [getEnvExpr, hp]
  · intro e rest hp; simp [getEnvExpr, hp]
  · intro k it rest hp hne
    cases it with
    | stmt st =>
        cases st with
        | exprStmt e => simp [isExprStmtItem] at hne
        | varDecl a b c => simp [getEnvExpr, getEnvExprProps, hp]
    | importDecl specs src => simp [getEnvExpr, getEnvExprProps, hp]
    | namedExport specs src => simp [getEnvExpr, getEnvExprProps, hp]
  · intro k it rest hp hne
    cases it with
    | stmt st =>
        cases st with
        | exprStmt e => simp [isExprStmtItem] at hne
        | varDecl a b c => simp [buildEnvMap, buildEnvMapGo, getEnvExpr, hp]
    | importDecl specs src => simp [buildEnvMap, buildEnvMapGo, getEnvExpr, hp]
    | namedExport specs src => simp [buildEnvMap, buildEnvMapGo, getEnvExpr, hp]

/-- Witness for `c7_theorem`: a string parsing to a variable declaration
(not an expression statement) produces the invalid-define error, at top
level and nested in an object. -/
theorem c7_witness :
    parseVarStmt "var x = 1" =
      some [.stmt (.varDecl "x" 0 (some (.numLit 1)))] ∧
    isExprStmtItem (.stmt (.varDecl "x" 0 (some (.numLit 1)))) = false ∧
    getEnvExpr parseVarStmt (.str "var x = 1") =
      some (.invalid "var x = 1") ∧
    buildEnvMap parseVarStmt [("wrong", .str "var x = 1")] =
      some (.invalid "var x = 1") := by
  refine ⟨by decide, by decide, ?_, ?_⟩
  · exact (c7_theorem parseVarStmt "var x = 1").2.2.2.1
      (.stmt (.varDecl "x" 0 (some (.numLit 1)))) [] (by decide) (by decide)
  · exact (c7_theorem parseVarStmt "var x = 1").2.2.2.2.2 "wrong"
      (.stmt (.varDecl "x" 0 (some (.numLit 1)))) [] (by decide) (by decide)

/-- The `Inject` spec of plugins/minifish/inject.rs (lines 92-100):
`fromModule` is the `from` field, `nspace` the `namespace` field, `exclude`
the regex source (never read by the visitor).  `PartialEq`/`Hash` compare
only `name`. -/
structure Inject where
  fromModule : String
  name : String
  named : Option String
  nspace : Option Bool
  exclude : Option String
  preferRequire : Bool
  deriving DecidableEq

/-- First-match lookup in the `HashMap<String, &Inject>` watch map. -/
def lookupInj : List (String × Inject) → String → Option Inject
  | [], _ => none
  | p :: rest, k => if p.1 = k then some p.2 else lookupInj rest k

/-- `HashMap::remove` of a watched name. -/
def removeInj (m : List (String × Inject)) (k : String) :
    List (String × Inject) :=
  m.filter (fun p => p.1 ≠ k)

/-- `IndexSet::insert` on `(inject, ctxt)` pairs: `Inject` equality is
name-only, insertion keeps the first occurrence and its order. -/
def insertWillInject (ws : List (Inject × Nat)) (p : Inject × Nat) :
    List (Inject × Nat) :=
  if ws.any (fun q => q.1.name = p.1.name && q.2 = p.2) then ws
  else ws ++ [p]

/-- The mutable state of `MyInjector`: the still-pending watch map and the
ordered pending set. -/
structure InjSt where
  injects : List (String × Inject)
  willInject : List (Inject × Nat)
  deriving DecidableEq

/-- `MyInjector::visit_mut_ident` (inject.rs lines 34-46) applied to one
identifier occurrence `(sym, ctxt)`: nothing happens once the watch map is
empty or when the occurrence is not free; otherwise a watched name is
removed from the map and queued with the occurrence's syntax context. -/
def visitIdentInj (mark : Nat) (st : InjSt) (id : String × Nat) : InjSt :=
  if st.injects.isEmpty then st
  else if id.2 = mark then
    match lookupInj st.injects id.1 with
    | some inj =>
        { injects := removeInj st.injects id.1
          willInject := insertWillInject st.willInject (inj, id.2) }
    | none => st
  else st

mutual
/-- The identifier occurrences of an expression in visitor order: every
`Ident` node reached by `visit_mut_ident`, including `MemberProp::Ident`
and `PrivateName` property names and `PropName::Ident` object keys (which
carry the empty syntax context, modelled as 0). -/
def collectExpr : JExpr → List (String × Nat)
  | .ident s c => [(s, c)]
  | .boolLit _ => []
  | .numLit _ => []
  | .strLit _ => []
  | .nullLit => []
  | .metaProp => []
  | .array es => collectList es
  | .object ps => collectProps ps
  | .memberI o s c => collectExpr o ++ [(s, c)]
  | .memberC o p => collectExpr o ++ collectExpr p
  | .memberP o s c => collectExpr o ++ [(s, c)]
  | .call f args => collectExpr f ++ collectList args

/-- Identifier occurrences of an expression list. -/
def collectList : JExprList → List (String × Nat)
  | .nil => []
  | .cons e rest => collectExpr e ++ collectList rest

/-- Identifier occurrences of object properties: the `PropName::Ident` key
(empty context) is visited before the value. -/
def collectProps : JPropList → List (String × Nat)
  | .nil => []
  | .cons k v rest => (k, 0) :: (collectExpr v ++ collectProps rest)
end

/-- Identifier occurrences of a statement: a declarator pattern is visited
before its initializer. -/
def collectStmt : Stmt → List (String × Nat)
  | .exprStmt e => collectExpr e
  | .varDecl s c none => [(s, c)]
  | .varDecl s c (some e) => (s, c) :: collectExpr e

/-- Identifier occurrences of an import specifier: the local binding, then
for a named specifier the optional `imported` name (empty context). -/
def collectImportSpec : ImportSpec → List (String × Nat)
  | .defaultSpec s c => [(s, c)]
  | .namedSpec s c none => [(s, c)]
  | .namedSpec s c (some i) => [(s, c), (i, 0)]
  | .starSpec s c => [(s, c)]

/-- Identifier occurrences of an export specifier when it is visited in
full (the `named_export.src.is_some()` branch and the namespace/default
specifiers of the other branch). -/
def collectExportSpecFull : ExportSpec → List (String × Nat)
  | .named o oc none => [(o, oc)]
  | .named o oc (some p) => [(o, oc), p]
  | .nspace s c => [(s, c)]
  | .dflt s c => [(s, c)]

/-- Identifier occurrences of a module item in visitor order, with the
`MyInjector::visit_mut_named_export` special case (inject.rs lines 48-64):
for a named export without a source, a named specifier contributes only its
original local name, never the exported alias. -/
def collectItem : Item → List (String × Nat)
  | .stmt s => collectStmt s
  | .importDecl specs _ => specs.flatMap collectImportSpec
  | .namedExport specs src =>
      match src with
      | some _ => specs.flatMap collectExportSpecFull
      | none =>
          specs.flatMap (fun sp =>
            match sp with
            | .named o oc _ => [(o, oc)]
            | sp => collectExportSpecFull sp)

/-- `ModuleItem::ModuleDecl(_)` test used by `visit_mut_module_items`
(inject.rs lines 80-89). -/
def isModuleDecl : Item → Bool
  | .stmt _ => false
  | .importDecl _ _ => true
  | .namedExport _ _ => true

/-- `Inject::into_require_with` (inject.rs lines 117-160): a `var`
declaration whose initializer calls `require(<fromModule>)` — the `require`
identifier carries the unresolved mark — followed by `.{named}` for a named
selector, nothing for a namespace selector, and `.default` otherwise; the
declared name carries the syntax context of the triggering use.  Requesting
both `named` and `namespace` panics (`none`). -/
def intoRequireWith (unresolvedMark : Nat) (inj : Inject) (ctxt : Nat) :
    Option Item :=
  let requireSourceExpr : JExpr :=
    .call (.ident "require" unresolvedMark)
      (.cons (.strLit inj.fromModule) .nil)
  match inj.named, inj.nspace with
  | some named, none =>
      some (.stmt (.varDecl inj.name ctxt
        (some (.memberI requireSourceExpr named 0))))
  | some named, some false =>
      some (.stmt (.varDecl inj.name ctxt
        (some (.memberI requireSourceExpr named 0))))
  | none, some true =>
      some (.stmt (.varDecl inj.name ctxt (some requireSourceExpr)))
  | none, none =>
      some (.stmt (.varDecl inj.name ctxt
        (some (.memberI requireSourceExpr "default" 0))))
  | none, some false =>
      some (.stmt (.varDecl inj.name ctxt
        (some (.memberI requireSourceExpr "default" 0))))
  | some _, some true => none

/-- `Inject::into_with` (inject.rs lines 162-207): an import declaration
with a named specifier (writing `imported` only when it differs from the
local name), a star specifier, or a default specifier.  Requesting both
`named` and `namespace` panics (`none`). -/
def intoWith (inj : Inject) (ctxt : Nat) : Option Item :=
  match inj.named, inj.nspace with
  | some named, none =>
      some (.importDecl
        [.namedSpec inj.name ctxt
          (if named = inj.name then none else some named)] inj.fromModule)
  | some named, some false =>
      some (.importDecl
        [.namedSpec inj.name ctxt
          (if named = inj.name then none else some named)] inj.fromModule)
  | none, some true =>
      some (.importDecl [.starSpec inj.name ctxt] inj.fromModule)
  | none, none =>
      some (.importDecl [.defaultSpec inj.name ctxt] inj.fromModule)
  | none, some false =>
      some (.importDecl [.defaultSpec inj.name ctxt] inj.fromModule)
  | some _, some true => none

/-- The statement-form selection of `visit_mut_module` (inject.rs lines
69-75): `require` when the module is CJS or the spec prefers require,
otherwise an import declaration. -/
def synthesize (unresolvedMark : Nat) (isCjs : Bool) (inj : Inject)
    (ctxt : Nat) : Option Item :=
  if isCjs || inj.preferRequire then intoRequireWith unresolvedMark inj ctxt
  else intoWith inj ctxt

/-- The statements synthesized by one run of `MyInjector` over a module
body: `visit_mut_module_items` classifies the module as CJS when no item is
a module declaration, the walk folds `visit_mut_ident` over every
identifier occurrence, and each pending injection is synthesized in
pending-set order. -/
def injectedStmts (unresolvedMark : Nat) (injects : List (String × Inject))
    (items : List Item) : Option (List Item) :=
  let isCjs := !(items.any isModuleDecl)
  let ids := items.flatMap collectItem
  let st := ids.foldl (visitIdentInj unresolvedMark) ⟨injects, []⟩
  mapMOpt (fun p => synthesize unresolvedMark isCjs p.1 p.2) st.willInject

/-- The full injection pass (`visit_mut_module`, inject.rs lines 66-78):
the synthesized statements are spliced in front of the module body. -/
def runInjector (unresolvedMark : Nat) (injects : List (String × Inject))
    (items : List Item) : Option (List Item) :=
  (injectedStmts unresolvedMark injects items).map (fun stmts => stmts ++ items)

/-- The local name bound by an injected statement. -/
def injectedName : Item → Option String
  | .stmt (.varDecl s _ _) => some s
  | .importDecl (.defaultSpec s _ :: _) _ => some s
  | .importDecl (.namedSpec s _ _ :: _) _ => some s
  | .importDecl (.starSpec s _ :: _) _ => some s
  | _ => none

/-- How many of the injected statements bind the name `nm`. -/
def countInjected (nm : String) (stmts : List Item) : Nat :=
  stmts.countP (fun it => injectedName it == some nm)

/-- True for a call of the free `require` identifier on one string
argument. -/
def isRequireCall : JExpr → Bool
  | .call (.ident s _) (.cons (.strLit _) .nil) => s = "require"
  | _ => false

/-- True when the expression is a `require(..)` call possibly followed by
one member access (`.default` or a named selector). -/
def requireRooted : JExpr → Bool
  | .memberI o _ _ => isRequireCall o
  | e => isRequireCall e

/-- A require-based injected statement: a `var` declaration initialized
from `require`. -/
def isRequireForm : Item → Bool
  | .stmt (.varDecl _ _ (some init)) => requireRooted init
  | _ => false

/-- An import-declaration injected statement. -/
def isImportForm : Item → Bool
  | .importDecl _ _ => true
  | _ => false

/-- Number of pending-set entries whose spec binds the name `nm`. -/
def countName (nm : String) (ws : List (Inject × Nat)) : Nat :=
  ws.countP (fun q => q.1.name == nm)

theorem lookupInj_mem (m : List (String × Inject)) (k : String) (v : Inject)
    (h : lookupInj m k = some v) : (k, v) ∈ m := by
  induction m with
  | nil => simp [lookupInj] at h
  | cons p rest ih =>
      by_cases hp : p.1 = k
      · simp [lookupInj, hp] at h
        subst h
        rw [← hp]
        exact List.mem_cons_self p rest
      · simp [lookupInj, hp] at h
        exact List.mem_cons_of_mem p (ih h)

theorem lookupInj_isSome_of_mem (m : List (String × Inject)) (k : String)
    (v : Inject) (h : (k, v) ∈ m) : (lookupInj m k).isSome := by
  induction m with
  | nil => simp at h
  | cons p rest ih =>
      by_cases hp : p.1 = k
      · simp [lookupInj, hp]
      · rcases List.mem_cons.mp h with heq | hmem
        · exact absurd (congrArg Prod.fst heq.symm) hp
        · simpa [lookupInj, hp] using ih hmem

theorem lookupInj_removeInj_self (m : List (String × Inject)) (k : String) :
    lookupInj (removeInj m k) k = none := by
  rw [removeInj]
  simp only [ne_eq, decide_not]
  induction m with
  | nil => simp [lookupInj]
  | cons p rest ih =>
      by_cases hp : p.1 = k
      · simp [hp, ih]
      · simp [lookupInj, hp, ih]

theorem lookupInj_removeInj_ne (m : List (String × Inject)) (k k' : String)
    (hne : k' ≠ k) : lookupInj (removeInj m k) k' = lookupInj m k' := by
  rw [removeInj]
  simp only [ne_eq, decide_not]
  induction m with
  | nil => simp [lookupInj]
  | cons p rest ih =>
      by_cases hp : p.1 = k
      · have hpk : ¬p.1 = k' := fun hh => hne (hh.symm.trans hp)
        have hkk : ¬k = k' := fun hh => hne hh.symm
        simp [lookupInj, hp, hpk, hkk, ih]
      · simp [lookupInj, hp]
        by_cases hk : p.1 = k'
        · simp [lookupInj, hk]
        · simp [lookupInj, hk, ih]

theorem removeInj_subset (m : List (String × Inject)) (k : String)
    (p : String × Inject) (h : p ∈ removeInj m k) : p ∈ m :=
  List.mem_of_mem_filter h

theorem countName_insertWillInject_ne (ws : List (Inject × Nat))
    (p : Inject × Nat) (nm : String) (hne : p.1.name ≠ nm) :
    countName nm (insertWillInject ws p) = countName nm ws := by
  rw [insertWillInject]
  split
  · rfl
  · simp [countName, List.countP_append, List.countP_cons, hne]

theorem countName_insertWillInject_self (ws : List (Inject × Nat))
    (p : Inject × Nat) (h0 : countName p.1.name ws = 0) :
    countName p.1.name (insertWillInject ws p) = 1 := by
  have hnone : ∀ q ∈ ws, ¬(q.1.name = p.1.name) := by
    intro q hq hqe
    have : 0 < countName p.1.name ws := by
      rw [countName]
      refine List.countP_pos_iff.mpr ⟨q, hq, ?_⟩
      simp [hqe]
    omega
  have hany : ws.any (fun q => q.1.name = p.1.name && q.2 = p.2) = false := by
    rw [List.any_eq_false]
    intro q hq
    simp [hnone q hq]
  simp only [insertWillInject, hany, Bool.false_eq_true, if_false]
  simp [countName, List.countP_append, List.countP_cons, h0]
  intro a b hab
  exact hnone (a, b) hab

theorem visitIdentInj_cases (mark : Nat) (st : InjSt) (id : String × Nat) :
    visitIdentInj mark st id = st ∨
    (id.2 = mark ∧ ∃ inj, lookupInj st.injects id.1 = some inj ∧
      visitIdentInj mark st id =
        { injects := removeInj st.injects id.1
          willInject := insertWillInject st.willInject (inj, id.2) }) := by
  by_cases he : st.injects.isEmpty = true
  · left; rw [visitIdentInj]; simp [he]
  · by_cases hm : id.2 = mark
    · cases hl : lookupInj st.injects id.1 with
      | none => left; rw [visitIdentInj]; simp [he, hm, hl]
      | some inj =>
          right
          refine ⟨hm, inj, rfl, ?_⟩
          rw [visitIdentInj]
          simp [he, hm, hl]
    · left; rw [visitIdentInj]; simp [he, hm]

theorem lookupInj_removeInj_none (m : List (String × Inject)) (k nm : String)
    (h : lookupInj m nm = none) : lookupInj (removeInj m k) nm = none := by
  by_cases hnk : nm = k
  · subst hnk; exact lookupInj_removeInj_self m nm
  · rw [lookupInj_removeInj_ne m k nm hnk]; exact h

theorem foldInj_injects_subset (mark : Nat) :
    ∀ (ids : List (String × Nat)) (st : InjSt) (p : String × Inject),
      p ∈ (ids.foldl (visitIdentInj mark) st).injects → p ∈ st.injects := by
  intro ids
  induction ids with
  | nil => intro st p h; simpa using h
  | cons id rest ih =>
      intro st p h
      simp only [List.foldl_cons] at h
      have h2 := ih (visitIdentInj mark st id) p h
      rcases visitIdentInj_cases mark st id with heq | ⟨_, inj, _, heq⟩
      · rwa [heq] at h2
      · rw [heq] at h2
        exact removeInj_subset _ _ _ h2

theorem foldInj_lookup_none (mark : Nat) (nm : String) :
    ∀ (ids : List (String × Nat)) (st : InjSt),
      lookupInj st.injects nm = none →
      lookupInj ((ids.foldl (visitIdentInj mark) st).injects) nm = none := by
  intro ids
  induction ids with
  | nil => intro st h; simpa using h
  | cons id rest ih =>
      intro st h
      simp only [List.foldl_cons]
      apply ih
      rcases visitIdentInj_cases mark st id with heq | ⟨_, inj, _, heq⟩
      · rwa [heq]
      · rw [heq]
        exact lookupInj_removeInj_none _ _ _ h

theorem foldInj_count_keyfree (mark : Nat) (nm : String) :
    ∀ (ids : List (String × Nat)) (st : InjSt),
      (∀ p ∈ st.injects, p.2.name = p.1) →
      lookupInj st.injects nm = none →
      countName nm ((ids.foldl (visitIdentInj mark) st).willInject) =
        countName nm st.willInject := by
  intro ids
  induction ids with
  | nil => intro st _ _; simp
  | cons id rest ih =>
      intro st hwf hnone
      simp only [List.foldl_cons]
      rcases visitIdentInj_cases mark st id with heq | ⟨_, inj, hl, heq⟩
      · rw [heq]; exact ih st hwf hnone
      · rw [heq]
        have hmem := lookupInj_mem _ _ _ hl
        have hname : inj.name = id.1 := hwf (id.1, inj) hmem
        have hne : id.1 ≠ nm := by
          intro hh
          rw [hh] at hl
          rw [hnone] at hl
          exact Option.noConfusion hl
        have hcnt :
            countName nm (insertWillInject st.willInject (inj, id.2)) =
              countName nm st.willInject := by
          apply countName_insertWillInject_ne
          rw [hname]; exact hne
        rw [ih _ ?_ ?_, hcnt]
        · intro p hp
          exact hwf p (removeInj_subset _ _ _ hp)
        · exact lookupInj_removeInj_none _ _ _ hnone

theorem foldInj_count_zero (mark : Nat) (nm : String) :
    ∀ (ids : List (String × Nat)) (st : InjSt),
      (∀ p ∈ st.injects, p.2.name = p.1) →
      (nm, mark) ∉ ids →
      countName nm ((ids.foldl (visitIdentInj mark) st).willInject) =
        countName nm st.willInject := by
  intro ids
  induction ids with
  | nil => intro st _ _; simp
  | cons id rest ih =>
      intro st hwf hocc
      have hoccr : (nm, mark) ∉ rest := fun hh => hocc (List.mem_cons_of_mem _ hh)
      have hocc1 : id ≠ (nm, mark) := fun hh => hocc (hh ▸ List.mem_cons_self _ _)
      simp only [List.foldl_cons]
      rcases visitIdentInj_cases mark st id with heq | ⟨hm, inj, hl, heq⟩
      · rw [heq]; exact ih st hwf hoccr
      · rw [heq]
        have hmem := lookupInj_mem _ _ _ hl
        have hname : inj.name = id.1 := hwf (id.1, inj) hmem
        have hne : id.1 ≠ nm := by
          intro hh
          apply hocc1
          cases id with
          | mk a b => simp only at hh hm; rw [hh, hm]
        have hcnt :
            countName nm (insertWillInject st.willInject (inj, id.2)) =
              countName nm st.willInject := by
          apply countName_insertWillInject_ne
          rw [hname]; exact hne
        rw [ih _ ?_ hoccr, hcnt]
        intro p hp
        exact hwf p (removeInj_subset _ _ _ hp)

theorem lookupInj_ne_nil (m : List (String × Inject)) (k : String)
    (inj : Inject) (h : lookupInj m k = some inj) : m.isEmpty = false := by
  cases m with
  | nil => simp [lookupInj] at h
  | cons p rest => simp

theorem foldInj_count_one (mark : Nat) (nm : String) :
    ∀ (ids : List (String × Nat)) (st : InjSt),
      (∀ p ∈ st.injects, p.2.name = p.1) →
      (lookupInj st.injects nm).isSome →
      countName nm st.willInject = 0 →
      (nm, mark) ∈ ids →
      countName nm ((ids.foldl (visitIdentInj mark) st).willInject) = 1 := by
  intro ids
  induction ids with
  | nil => intro st _ _ _ hocc; simp at hocc
  | cons id rest ih =>
      intro st hwf hkey hcnt hocc
      simp only [List.foldl_cons]
      by_cases hid : id = (nm, mark)
      · subst hid
        obtain ⟨inj, hl⟩ := Option.isSome_iff_exists.mp hkey
        have hmem := lookupInj_mem _ _ _ hl
        have hname : inj.name = nm := hwf (nm, inj) hmem
        have hstep : visitIdentInj mark st (nm, mark) =
            { injects := removeInj st.injects nm
              willInject := insertWillInject st.willInject (inj, mark) } := by
          rw [visitIdentInj]
          simp [lookupInj_ne_nil _ _ _ hl, hl]
        rw [hstep]
        have hone :
            countName nm (insertWillInject st.willInject (inj, mark)) = 1 := by
          have := countName_insertWillInject_self st.willInject (inj, mark)
            (by simpa [hname] using hcnt)
          simpa [hname] using this
        rw [foldInj_count_keyfree mark nm rest _ ?_ ?_]
        · exact hone
        · intro p hp
          exact hwf p (removeInj_subset _ _ _ hp)
        · exact lookupInj_removeInj_self _ _
      · have hoccr : (nm, mark) ∈ rest := by
          rcases List.mem_cons.mp hocc with hh | hh
          · exact absurd hh.symm hid
          · exact hh
        rcases visitIdentInj_cases mark st id with heq | ⟨hm, inj, hl, heq⟩
        · rw [heq]; exact ih st hwf hkey hcnt hoccr
        · rw [heq]
          have hmem := lookupInj_mem _ _ _ hl
          have hname : inj.name = id.1 := hwf (id.1, inj) hmem
          have hne : id.1 ≠ nm := by
            intro hh
            apply hid
            cases id with
            | mk a b => simp only at hh hm; rw [hh, hm]
          apply ih
          · intro p hp
            exact hwf p (removeInj_subset _ _ _ hp)
          · rw [lookupInj_removeInj_ne _ _ _ (fun hh => hne hh.symm)]
            exact hkey
          · rw [countName_insertWillInject_ne _ _ _ (by rw [hname]; exact hne)]
            exact hcnt
          · exact hoccr

theorem foldInj_id (mark : Nat) :
    ∀ (ids : List (String × Nat)) (st : InjSt),
      (∀ id ∈ ids, id.2 = mark → lookupInj st.injects id.1 = none) →
      ids.foldl (visitIdentInj mark) st = st := by
  intro ids
  induction ids with
  | nil => intro st _; simp
  | cons id rest ih =>
      intro st h
      have hstep : visitIdentInj mark st id = st := by
        rcases visitIdentInj_cases mark st id with heq | ⟨hm, inj, hl, heq⟩
        · exact heq
        · rw [h id (List.mem_cons_self _ _) hm] at hl
          exact Option.noConfusion hl
      simp only [List.foldl_cons, hstep]
      exact ih st (fun q hq => h q (List.mem_cons_of_mem _ hq))

theorem mem_insertWillInject (ws : List (Inject × Nat)) (p q : Inject × Nat)
    (h : q ∈ insertWillInject ws p) : q ∈ ws ∨ q = p := by
  rw [insertWillInject] at h
  split at h
  · exact Or.inl h
  · rcases List.mem_append.mp h with hh | hh
    · exact Or.inl hh
    · exact Or.inr (by simpa using hh)

theorem foldInj_willInject_from (mark : Nat) :
    ∀ (ids : List (String × Nat)) (st : InjSt) (q : Inject × Nat),
      q ∈ (ids.foldl (visitIdentInj mark) st).willInject →
      q ∈ st.willInject ∨ ∃ k, (k, q.1) ∈ st.injects := by
  intro ids
  induction ids with
  | nil => intro st q h; exact Or.inl (by simpa using h)
  | cons id rest ih =>
      intro st q h
      simp only [List.foldl_cons] at h
      rcases visitIdentInj_cases mark st id with heq | ⟨hm, inj, hl, heq⟩
      · rw [heq] at h; exact ih st q h
      · rw [heq] at h
        rcases ih _ q h with hw | ⟨k, hk⟩
        · rcases mem_insertWillInject _ _ _ hw with hw2 | hw2
          · exact Or.inl hw2
          · refine Or.inr ⟨id.1, ?_⟩
            rw [hw2]
            exact lookupInj_mem _ _ _ hl
        · exact Or.inr ⟨k, removeInj_subset _ _ _ hk⟩

theorem intoRequireWith_name (mark : Nat) (inj : Inject) (c : Nat)
    (it : Item) (h : intoRequireWith mark inj c = some it) :
    injectedName it = some inj.name := by
  rw [intoRequireWith] at h
  cases hn : inj.named with
  | none =>
      cases hs : inj.nspace with
      | none => rw [hn, hs] at h; cases h; simp [injectedName]
      | some b =>
          cases b <;> rw [hn, hs] at h <;> cases h <;> simp [injectedName]
  | some named =>
      cases hs : inj.nspace with
      | none => rw [hn, hs] at h; cases h; simp [injectedName]
      | some b =>
          cases b
          · rw [hn, hs] at h; cases h; simp [injectedName]
          · rw [hn, hs] at h; exact Option.noConfusion h

theorem intoWith_name (inj : Inject) (c : Nat) (it : Item)
    (h : intoWith inj c = some it) : injectedName it = some inj.name := by
  rw [intoWith] at h
  cases hn : inj.named with
  | none =>
      cases hs : inj.nspace with
      | none => rw [hn, hs] at h; cases h; simp [injectedName]
      | some b =>
          cases b <;> rw [hn, hs] at h <;> cases h <;> simp [injectedName]
  | some named =>
      cases hs : inj.nspace with
      | none => rw [hn, hs] at h; cases h; simp [injectedName]
      | some b =>
          cases b
          · rw [hn, hs] at h; cases h; simp [injectedName]
          · rw [hn, hs] at h; exact Option.noConfusion h

theorem synthesize_name (mark : Nat) (isCjs : Bool) (inj : Inject) (c : Nat)
    (it : Item) (h : synthesize mark isCjs inj c = some it) :
    injectedName it = some inj.name := by
  rw [synthesize] at h
  split at h
  · exact intoRequireWith_name mark inj c it h
  · exact intoWith_name inj c it h

theorem intoRequireWith_isSome (mark : Nat) (inj : Inject) (c : Nat)
    (hv : ¬(inj.named.isSome ∧ inj.nspace = some true)) :
    (intoRequireWith mark inj c).isSome := by
  rw [intoRequireWith]
  cases hn : inj.named with
  | none =>
      cases hs : inj.nspace with
      | none => simp
      | some b => cases b <;> simp
  | some named =>
      cases hs : inj.nspace with
      | none => simp
      | some b =>
          cases b
          · simp
          · exact absurd ⟨by simp [hn], hs⟩ hv

theorem intoWith_isSome (inj : Inject) (c : Nat)
    (hv : ¬(inj.named.isSome ∧ inj.nspace = some true)) :
    (intoWith inj c).isSome := by
  rw [intoWith]
  cases hn : inj.named with
  | none =>
      cases hs : inj.nspace with
      | none => simp
      | some b => cases b <;> simp
  | some named =>
      cases hs : inj.nspace with
      | none => simp
      | some b =>
          cases b
          · simp
          · exact absurd ⟨by simp [hn], hs⟩ hv

theorem synthesize_isSome (mark : Nat) (isCjs : Bool) (inj : Inject) (c : Nat)
    (hv : ¬(inj.named.isSome ∧ inj.nspace = some true)) :
    (synthesize mark isCjs inj c).isSome := by
  rw [synthesize]
  split
  · exact intoRequireWith_isSome mark inj c hv
  · exact intoWith_isSome inj c hv

theorem intoRequireWith_form (mark : Nat) (inj : Inject) (c : Nat)
    (it : Item) (h : intoRequireWith mark inj c = some it) :
    isRequireForm it = true := by
  rw [intoRequireWith] at h
  cases hn : inj.named with
  | none =>
      cases hs : inj.nspace with
      | none =>
          rw [hn, hs] at h; cases h
          simp [isRequireForm, requireRooted, isRequireCall]
      | some b =>
          cases b <;> rw [hn, hs] at h <;> cases h <;>
            simp [isRequireForm, requireRooted, isRequireCall]
  | some named =>
      cases hs : inj.nspace with
      | none =>
          rw [hn, hs] at h; cases h
          simp [isRequireForm, requireRooted, isRequireCall]
      | some b =>
          cases b
          · rw [hn, hs] at h; cases h
            simp [isRequireForm, requireRooted, isRequireCall]
          · rw [hn, hs] at h; exact Option.noConfusion h

theorem intoWith_form (inj : Inject) (c : Nat) (it : Item)
    (h : intoWith inj c = some it) : isImportForm it = true := by
  rw [intoWith] at h
  cases hn : inj.named with
  | none =>
      cases hs : inj.nspace with
      | none => rw [hn, hs] at h; cases h; simp [isImportForm]
      | some b => cases b <;> rw [hn, hs] at h <;> cases h <;> simp [isImportForm]
  | some named =>
      cases hs : inj.nspace with
      | none => rw [hn, hs] at h; cases h; simp [isImportForm]
      | some b =>
          cases b
          · rw [hn, hs] at h; cases h; simp [isImportForm]
          · rw [hn, hs] at h; exact Option.noConfusion h

theorem mapMOpt_synth (mark : Nat) (isCjs : Bool) :
    ∀ (ws : List (Inject × Nat)),
      (∀ q ∈ ws, (synthesize mark isCjs q.1 q.2).isSome) →
      ∃ stmts,
        mapMOpt (fun p => synthesize mark isCjs p.1 p.2) ws = some stmts ∧
        (∀ nm, countInjected nm stmts = countName nm ws) ∧
        (∀ it ∈ stmts, ∃ q ∈ ws, synthesize mark isCjs q.1 q.2 = some it) := by
  intro ws
  induction ws with
  | nil =>
      intro _
      exact ⟨[], by simp [mapMOpt], by simp [countInjected, countName], by simp⟩
  | cons q rest ih =>
      intro hall
      obtain ⟨it, hit⟩ := Option.isSome_iff_exists.mp
        (hall q (List.mem_cons_self _ _))
      obtain ⟨stmts, hmap, hcnt, hfrom⟩ :=
        ih (fun p hp => hall p (List.mem_cons_of_mem _ hp))
      refine ⟨it :: stmts, ?_, ?_, ?_⟩
      · simp [mapMOpt, hit, hmap]
      · intro nm
        have hn := synthesize_name mark isCjs q.1 q.2 it hit
        simp [countInjected, countName, List.countP_cons, hn] at *
        rw [hcnt nm]
      · intro x hx
        rcases List.mem_cons.mp hx with hh | hh
        · exact ⟨q, List.mem_cons_self _ _, hh ▸ hit⟩
        · obtain ⟨p, hp, hps⟩ := hfrom x hh
          exact ⟨p, List.mem_cons_of_mem _ hp, hps⟩

theorem injectedStmts_spec (mark : Nat) (injects : List (String × Inject))
    (items : List Item)
    (hv : ∀ p ∈ injects, ¬((p.2).named.isSome ∧ (p.2).nspace = some true)) :
    ∃ stmts, injectedStmts mark injects items = some stmts ∧
      ∀ nm, countInjected nm stmts =
        countName nm (((items.flatMap collectItem).foldl
          (visitIdentInj mark) ⟨injects, []⟩).willInject) := by
  have hall : ∀ q ∈ ((items.flatMap collectItem).foldl
      (visitIdentInj mark) ⟨injects, []⟩).willInject,
      (synthesize mark (!(items.any isModuleDecl)) q.1 q.2).isSome := by
    intro q hq
    rcases foldInj_willInject_from mark (items.flatMap collectItem)
      ⟨injects, []⟩ q hq with hw | ⟨k, hk⟩
    · simp at hw
    · exact synthesize_isSome mark _ q.1 q.2 (hv (k, q.1) hk)
  obtain ⟨stmts, hmap, hcnt, _⟩ :=
    mapMOpt_synth mark (!(items.any isModuleDecl)) _ hall
  exact ⟨stmts, hmap, hcnt⟩

/-- Claim C4: for every module tree and Inject-Spec table (well-formed: each
spec is keyed by its own name and requests at most one of the named and
namespace selectors), a watched name with no free occurrence among the
identifiers the walk visits gets no injected statement, a watched name with
at least one such free occurrence gets exactly one injected statement
regardless of the number of occurrences, and when no watched name occurs
free the pass returns the module body unchanged. -/
theorem c4_theorem (mark : Nat) (injects : List (String × Inject))
    (items : List Item) (nm : String)
    (hwf : ∀ p ∈ injects, (p.2).name = p.1)
    (hv : ∀ p ∈ injects, ¬((p.2).named.isSome ∧ (p.2).nspace = some true))
    (hk : (lookupInj injects nm).isSome) :
    ∃ stmts, injectedStmts mark injects items = some stmts ∧
      ((nm, mark) ∉ items.flatMap collectItem → countInjected nm stmts = 0) ∧
      ((nm, mark) ∈ items.flatMap collectItem → countInjected nm stmts = 1) ∧
      ((∀ p ∈ injects, (p.1, mark) ∉ items.flatMap collectItem) →
        runInjector mark injects items = some items) := by
  obtain ⟨stmts, hmap, hcnt⟩ := injectedStmts_spec mark injects items hv
  refine ⟨stmts, hmap, ?_, ?_, ?_⟩
  · intro hocc
    rw [hcnt nm,
      foldInj_count_zero mark nm (items.flatMap collectItem) ⟨injects, []⟩
        hwf hocc]
    simp [countName]
  · intro hocc
    rw [hcnt nm,
      foldInj_count_one mark nm (items.flatMap collectItem) ⟨injects, []⟩
        hwf hk (by simp [countName]) hocc]
  · intro hnone
    have hid : (items.flatMap collectItem).foldl (visitIdentInj mark)
        ⟨injects, []⟩ = ⟨injects, []⟩ := by
      apply foldInj_id
      intro id hid hm
      cases hl : lookupInj injects id.1 with
      | none => rfl
      | some inj =>
          exfalso
          apply hnone (id.1, inj) (lookupInj_mem _ _ _ hl)
          have : id = (id.1, mark) := by
            cases id with
            | mk a b => simp only at hm ⊢; rw [hm]
          rwa [← this]
    have hstmts : injectedStmts mark injects items = some [] := by
      rw [injectedStmts]
      simp only [hid]
      simp [mapMOpt]
    rw [runInjector, hstmts]
    simp

/-- Witness for `c4_theorem`: the spec's scenario — watch map
`my -> {from: mock-lib, default import}` and module `my.call("toast");` —
no import/export, one free use of `my`; also the no-occurrence module
`log(1);` is returned unchanged. -/
theorem c4_witness :
    (∀ p ∈ [("my", Inject.mk "mock-lib" "my" none none none false)],
      (p.2).name = p.1) ∧
    (∀ p ∈ [("my", Inject.mk "mock-lib" "my" none none none false)],
      ¬((p.2).named.isSome ∧ (p.2).nspace = some true)) ∧
    (lookupInj [("my", Inject.mk "mock-lib" "my" none none none false)]
      "my").isSome ∧
    (∃ stmts,
      injectedStmts 1 [("my", Inject.mk "mock-lib" "my" none none none false)]
          [.stmt (.exprStmt (.call (.memberI (.ident "my" 1) "call" 0)
            (.cons (.strLit "toast") .nil)))] = some stmts ∧
      (("my", 1) ∉
          ([Item.stmt (.exprStmt (.call (.memberI (.ident "my" 1) "call" 0)
            (.cons (.strLit "toast") .nil)))].flatMap collectItem) →
        countInjected "my" stmts = 0) ∧
      (("my", 1) ∈
          ([Item.stmt (.exprStmt (.call (.memberI (.ident "my" 1) "call" 0)
            (.cons (.strLit "toast") .nil)))].flatMap collectItem) →
        countInjected "my" stmts = 1) ∧
      ((∀ p ∈ [("my", Inject.mk "mock-lib" "my" none none none false)],
          (p.1, 1) ∉
            ([Item.stmt (.exprStmt (.call (.memberI (.ident "my" 1) "call" 0)
              (.cons (.strLit "toast") .nil)))].flatMap collectItem)) →
        runInjector 1 [("my", Inject.mk "mock-lib" "my" none none none false)]
            [.stmt (.exprStmt (.call (.memberI (.ident "my" 1) "call" 0)
              (.cons (.strLit "toast") .nil)))] =
          some [.stmt (.exprStmt (.call (.memberI (.ident "my" 1) "call" 0)
            (.cons (.strLit "toast") .nil)))])) :=
  ⟨by decide, by decide, by decide,
    c4_theorem 1 [("my", Inject.mk "mock-lib" "my" none none none false)]
      [.stmt (.exprStmt (.call (.memberI (.ident "my" 1) "call" 0)
        (.cons (.strLit "toast") .nil)))] "my"
      (by decide) (by decide) (by decide)⟩

/-- Claim C5: for every module body and triggered spec (requesting at most
one selector), the synthesized statement — produced by `synthesize`, which
`injectedStmts` applies with `isCjs` set when no item is an import/export
declaration — is a `require`-based variable declaration when the module has
no import/export declaration, an `import` declaration when it has one,
except that a spec with `prefer_require` always yields the `require` form. -/
theorem c5_theorem (mark : Nat) (items : List Item) (inj : Inject) (c : Nat)
    (hv : ¬(inj.named.isSome ∧ inj.nspace = some true)) :
    ∃ it, synthesize mark (!(items.any isModuleDecl)) inj c = some it ∧
      (items.any isModuleDecl = false → isRequireForm it = true) ∧
      (items.any isModuleDecl = true → inj.preferRequire = true →
        isRequireForm it = true) ∧
      (items.any isModuleDecl = true → inj.preferRequire = false →
        isImportForm it = true) := by
  obtain ⟨it, hit⟩ := Option.isSome_iff_exists.mp
    (synthesize_isSome mark (!(items.any isModuleDecl)) inj c hv)
  refine ⟨it, hit, ?_, ?_, ?_⟩
  · intro hesm
    rw [synthesize, hesm] at hit
    simp at hit
    exact intoRequireWith_form mark inj c it hit
  · intro hesm hp
    rw [synthesize, hesm, hp] at hit
    simp at hit
    exact intoRequireWith_form mark inj c it hit
  · intro hesm hp
    rw [synthesize, hesm, hp] at hit
    simp at hit
    exact intoWith_form inj c it hit

/-- Witness for `c5_theorem`: the default-import spec for `my` from
`mock-lib` against a CJS module (expression statement only) and against an
ESM module (containing `export { }`). -/
theorem c5_witness :
    (¬((Inject.mk "mock-lib" "my" none none none false).named.isSome ∧
      (Inject.mk "mock-lib" "my" none none none false).nspace = some true)) ∧
    (∃ it, synthesize 1
        (!([Item.stmt (.exprStmt (.ident "my" 1))].any isModuleDecl))
        (Inject.mk "mock-lib" "my" none none none false) 1 = some it ∧
      ([Item.stmt (.exprStmt (.ident "my" 1))].any isModuleDecl = false →
        isRequireForm it = true) ∧
      ([Item.stmt (.exprStmt (.ident "my" 1))].any isModuleDecl = true →
        (Inject.mk "mock-lib" "my" none none none false).preferRequire = true →
        isRequireForm it = true) ∧
      ([Item.stmt (.exprStmt (.ident "my" 1))].any isModuleDecl = true →
        (Inject.mk "mock-lib" "my" none none none false).preferRequire = false →
        isImportForm it = true)) ∧
    (∃ it, synthesize 1
        (!([Item.stmt (.exprStmt (.ident "my" 1)),
            Item.namedExport [] none].any isModuleDecl))
        (Inject.mk "mock-lib" "my" none none none false) 1 = some it ∧
      ([Item.stmt (.exprStmt (.ident "my" 1)),
          Item.namedExport [] none].any isModuleDecl = false →
        isRequireForm it = true) ∧
      ([Item.stmt (.exprStmt (.ident "my" 1)),
          Item.namedExport [] none].any isModuleDecl = true →
        (Inject.mk "mock-lib" "my" none none none false).preferRequire = true →
        isRequireForm it = true) ∧
      ([Item.stmt (.exprStmt (.ident "my" 1)),
          Item.namedExport [] none].any isModuleDecl = true →
        (Inject.mk "mock-lib" "my" none none none false).preferRequire = false →
        isImportForm it = true)) :=
  ⟨by decide,
    c5_theorem 1 [Item.stmt (.exprStmt (.ident "my" 1))]
      (Inject.mk "mock-lib" "my" none none none false) 1 (by decide),
    c5_theorem 1 [Item.stmt (.exprStmt (.ident "my" 1)),
        Item.namedExport [] none]
      (Inject.mk "mock-lib" "my" none none none false) 1 (by decide)⟩

/-- Claim C6: a named-export specifier `export { x as y }` (no source)
whose exported alias `y` is watched while the original local name `x` is
not, with `y` having no other free occurrence, triggers no injection for
`y`: only the original name is checked against the watch map, whatever the
alias's syntax context `cy` is (even the unresolved mark). -/
theorem c6_theorem (mark : Nat) (injects : List (String × Inject))
    (pre post : List Item) (x y : String) (cx cy : Nat)
    (hwf : ∀ p ∈ injects, (p.2).name = p.1)
    (hv : ∀ p ∈ injects, ¬((p.2).named.isSome ∧ (p.2).nspace = some true))
    (hky : (lookupInj injects y).isSome)
    (hkx : lookupInj injects x = none)
    (hpre : (y, mark) ∉ pre.flatMap collectItem)
    (hpost : (y, mark) ∉ post.flatMap collectItem) :
    ∃ stmts,
      injectedStmts mark injects
        (pre ++ [.namedExport [.named x cx (some (y, cy))] none] ++ post) =
        some stmts ∧
      countInjected y stmts = 0 := by
  obtain ⟨stmts, hmap, hcnt⟩ := injectedStmts_spec mark injects
    (pre ++ [.namedExport [.named x cx (some (y, cy))] none] ++ post) hv
  refine ⟨stmts, hmap, ?_⟩
  have hxy : y ≠ x := by
    intro hh
    rw [hh, hkx] at hky
    simp at hky
  have hocc : (y, mark) ∉
      (pre ++ [Item.namedExport [.named x cx (some (y, cy))] none] ++
        post).flatMap collectItem := by
    intro hh
    simp only [List.flatMap_append, List.mem_append] at hh
    rcases hh with (hh | hh) | hh
    · exact hpre hh
    · simp [collectItem] at hh
      exact hxy hh.1
    · exact hpost hh
  rw [hcnt y,
    foldInj_count_zero mark y _ ⟨injects, []⟩ hwf hocc]
  simp [countName]

/-- Witness for `c6_theorem`: the spec's scenario `let foo = 1;
export { foo as my }` with watched name `my` — nothing is injected even
though the alias carries the unresolved mark. -/
theorem c6_witness :
    (lookupInj [("my", Inject.mk "mock-lib" "my" none none none true)]
      "my").isSome ∧
    lookupInj [("my", Inject.mk "mock-lib" "my" none none none true)]
      "foo" = none ∧
    (∃ stmts,
      injectedStmts 1 [("my", Inject.mk "mock-lib" "my" none none none true)]
        ([.stmt (.varDecl "foo" 2 (some (.numLit 1)))] ++
          [.namedExport [.named "foo" 2 (some ("my", 1))] none] ++ []) =
        some stmts ∧
      countInjected "my" stmts = 0) :=
  ⟨by decide, by decide,
    c6_theorem 1 [("my", Inject.mk "mock-lib" "my" none none none true)]
      [.stmt (.varDecl "foo" 2 (some (.numLit 1)))] [] "foo" "my" 2 1
      (by decide) (by decide) (by decide) (by decide) (by decide) (by decide)⟩

namespace Mako

/-- Modelled from the spec (section 3): `ModuleId` is an opaque, stable,
globally unique identifier; module_graph.rs itself reads its `id` string
field (line 110). -/
structure ModuleId where
  id : String
  deriving DecidableEq

/-- Modelled from the spec: the node payload fields the graph reads (`id`,
`is_entry`); the syntax tree and other metadata play no role in
module_graph.rs. -/
structure Module where
  id : ModuleId
  isEntry : Bool
  deriving DecidableEq

/-- Modelled from the spec: the edge payload carries the declaration order
(module_graph.rs reads `dep.order` at line 98) plus opaque resolution
metadata. -/
structure Dependency where
  order : Nat
  source : String
  deriving DecidableEq

/-- One edge of the `StableDiGraph`: source and target node indices and the
`Dependency` weight. -/
structure GEdge where
  src : Nat
  dst : Nat
  dep : Dependency
  deriving DecidableEq

/-- The `ModuleGraph` of module_graph.rs: the id-to-index map
(`HashMap<ModuleId, NodeIndex>`), the node arena (indices are assigned
sequentially by `add_node` and, absent removals, equal list positions), the
edge list in insertion order, and the entry set. -/
structure ModuleGraph where
  idIndexMap : List (ModuleId × Nat)
  nodes : List Module
  edges : List GEdge
  entries : List ModuleId
  deriving DecidableEq

/-- First-match lookup in the id-to-index map. -/
def mapLookup : List (ModuleId × Nat) → ModuleId → Option Nat
  | [], _ => none
  | p :: rest, k => if p.1 = k then some p.2 else mapLookup rest k

/-- `HashMap::insert` on the id-to-index map. -/
def mapInsert (m : List (ModuleId × Nat)) (k : ModuleId) (v : Nat) :
    List (ModuleId × Nat) :=
  (m.filter (fun p => p.1 ≠ k)) ++ [(k, v)]

/-- `HashSet::insert` on the entry set. -/
def insertEntry (es : List ModuleId) (k : ModuleId) : List ModuleId :=
  if k ∈ es then es else es ++ [k]

/-- `ModuleGraph::new`. -/
def ModuleGraph.new : ModuleGraph :=
  { idIndexMap := [], nodes := [], edges := [], entries := [] }

/-- `ModuleGraph::add_module` (module_graph.rs lines 31-41): add a node,
record its index under the module's id, and register the entry flag. -/
def ModuleGraph.addModule (g : ModuleGraph) (m : Module) : ModuleGraph :=
  { idIndexMap := mapInsert g.idIndexMap m.id g.nodes.length
    nodes := g.nodes ++ [m]
    edges := g.edges
    entries := if m.isEntry then insertEntry g.entries m.id else g.entries }

/-- `ModuleGraph::has_module`. -/
def ModuleGraph.hasModule (g : ModuleGraph) (id : ModuleId) : Bool :=
  (mapLookup g.idIndexMap id).isSome

/-- `ModuleGraph::get_module`. -/
def ModuleGraph.getModule (g : ModuleGraph) (id : ModuleId) : Option Module :=
  (mapLookup g.idIndexMap id).bind (fun i => g.nodes[i]?)

/-- `ModuleGraph::get_module_ids`. -/
def ModuleGraph.getModuleIds (g : ModuleGraph) : List ModuleId :=
  g.nodes.map (fun m => m.id)

/-- `ModuleGraph::get_entry_modules`. -/
def ModuleGraph.getEntryModules (g : ModuleGraph) : List ModuleId :=
  g.entries

/-- `StableDiGraph::update_edge`: replace the weight of the edge with the
given endpoints if it exists, else append a new edge. -/
def updateEdge : List GEdge → Nat → Nat → Dependency → List GEdge
  | [], f, t, d => [⟨f, t, d⟩]
  | e :: rest, f, t, d =>
      if e.src = f ∧ e.dst = t then ⟨f, t, d⟩ :: rest
      else e :: updateEdge rest f t d

/-- `ModuleGraph::add_dependency` (module_graph.rs lines 71-81): both
endpoints are looked up — `unwrap_or_else(panic)` is modelled as `none` —
and the edge is upserted. -/
def ModuleGraph.addDependency (g : ModuleGraph) (fromId toId : ModuleId)
    (dep : Dependency) : Option ModuleGraph :=
  match mapLookup g.idIndexMap fromId, mapLookup g.idIndexMap toId with
  | some f, some t => some { g with edges := updateEdge g.edges f t dep }
  | _, _ => none

/-- Comparison by the edge's declaration order, the key of the
`deps.sort_by_key(|(_, dep)| dep.order)` call. -/
def depLE (a b : ModuleId × Dependency) : Prop :=
  a.2.order ≤ b.2.order

instance : DecidableRel depLE := fun a b =>
  inferInstanceAs (Decidable (a.2.order ≤ b.2.order))

instance : IsTotal (ModuleId × Dependency) depLE :=
  ⟨fun a b => Nat.le_total a.2.order b.2.order⟩

instance : IsTrans (ModuleId × Dependency) depLE :=
  ⟨fun _ _ _ hab hbc => Nat.le_trans hab hbc⟩

/-- `ModuleGraph::get_dependencies` (module_graph.rs lines 83-100): panic
(`none`) when the id is unregistered; otherwise the outgoing edges are
collected (their deterministic petgraph iteration order modelled as edge
insertion order), each target's node weight is read (`unwrap` is `none` on
a dangling index), and the result is stably sorted by declaration order
(`sort_by_key` is a stable sort, modelled by insertion sort, which computes
the same list as any stable sort). -/
def ModuleGraph.getDependencies (g : ModuleGraph) (id : ModuleId) :
    Option (List (ModuleId × Dependency)) :=
  match mapLookup g.idIndexMap id with
  | none => none
  | some i =>
      match mapMOpt (fun e => (g.nodes[e.dst]?).map (fun m => (m.id, e.dep)))
          (g.edges.filter (fun e => e.src = i)) with
      | none => none
      | some deps => some (List.insertionSort depLE deps)

/-- One mutating graph operation; the read-only queries do not change the
state and are omitted from traces. -/
inductive GOp where
  | addModule (m : Module)
  | addDependency (fromId toId : ModuleId) (dep : Dependency)

/-- Apply one operation; a panicking `add_dependency` aborts the trace. -/
def applyOp (g : ModuleGraph) : GOp → Option ModuleGraph
  | .addModule m => some (g.addModule m)
  | .addDependency f t d => g.addDependency f t d

/-- Run a trace of operations from a starting graph. -/
def runOps (g : ModuleGraph) : List GOp → Option ModuleGraph
  | [] => some g
  | op :: rest =>
      match applyOp g op with
      | none => none
      | some g2 => runOps g2 rest

/-- The ids passed to `add_module` in a trace, in order. -/
def addedIds : List GOp → List ModuleId
  | [] => []
  | .addModule m :: rest => m.id :: addedIds rest
  | .addDependency _ _ _ :: rest => addedIds rest

/-- The data-model invariant of spec section 3: every id-to-index entry
addresses exactly one live node bearing that id (the map's keys are
distinct and distinct keys hold distinct indices), and every edge's two
endpoints are indices held by the map (hence of previously added
modules). -/
def GraphInv (g : ModuleGraph) : Prop :=
  (∀ p ∈ g.idIndexMap, ∃ m, g.nodes[p.2]? = some m ∧ m.id = p.1) ∧
  (g.idIndexMap.map Prod.fst).Nodup ∧
  (∀ p ∈ g.idIndexMap, ∀ q ∈ g.idIndexMap, p.2 = q.2 → p.1 = q.1) ∧
  (∀ e ∈ g.edges,
    (∃ p ∈ g.idIndexMap, p.2 = e.src) ∧ (∃ q ∈ g.idIndexMap, q.2 = e.dst))

end Mako

namespace Mako

theorem mapLookup_mem (m : List (ModuleId × Nat)) (k : ModuleId) (v : Nat)
    (h : mapLookup m k = some v) : (k, v) ∈ m := by
  induction m with
  | nil => simp [mapLookup] at h
  | cons p rest ih =>
      by_cases hp : p.1 = k
      · simp [mapLookup, hp] at h
        subst h
        rw [← hp]
        exact List.mem_cons_self p rest
      · simp [mapLookup, hp] at h
        exact List.mem_cons_of_mem p (ih h)

theorem mapLookup_none_forall (m : List (ModuleId × Nat)) (k : ModuleId)
    (h : mapLookup m k = none) : ∀ p ∈ m, p.1 ≠ k := by
  induction m with
  | nil => simp
  | cons p rest ih =>
      by_cases hp : p.1 = k
      · simp [mapLookup, hp] at h
      · simp [mapLookup, hp] at h
        intro q hq
        rcases List.mem_cons.mp hq with hh | hh
        · rw [hh]; exact hp
        · exact ih h q hh

theorem mapLookup_filter_ne (m : List (ModuleId × Nat)) (k k' : ModuleId)
    (hne : k' ≠ k) :
    mapLookup (m.filter (fun p => p.1 ≠ k)) k' = mapLookup m k' := by
  simp only [ne_eq, decide_not]
  induction m with
  | nil => simp [mapLookup]
  | cons p rest ih =>
      by_cases hp : p.1 = k
      · have hpk : ¬p.1 = k' := fun hh => hne (hh.symm.trans hp)
        have hkk : ¬k = k' := fun hh => hne hh.symm
        simp [mapLookup, hp, hpk, hkk, ih]
      · simp [mapLookup, hp]
        by_cases hk : p.1 = k'
        · simp [mapLookup, hk]
        · simp [mapLookup, hk, ih]

theorem mapLookup_append (m1 m2 : List (ModuleId × Nat)) (k : ModuleId) :
    mapLookup (m1 ++ m2) k =
      (mapLookup m1 k).orElse (fun _ => mapLookup m2 k) := by
  induction m1 with
  | nil => simp [mapLookup]
  | cons p rest ih =>
      by_cases hp : p.1 = k <;> simp [mapLookup, hp, ih]

theorem mapLookup_mapInsert_ne (m : List (ModuleId × Nat)) (k k' : ModuleId)
    (v : Nat) (hne : k' ≠ k) :
    mapLookup (mapInsert m k v) k' = mapLookup m k' := by
  rw [mapInsert, mapLookup_append, mapLookup_filter_ne m k k' hne]
  have hk2 : ¬k = k' := fun hh => hne hh.symm
  cases h : mapLookup m k' <;> simp [mapLookup, hk2, h]

theorem mem_updateEdge (l : List GEdge) (f t : Nat) (d : Dependency)
    (e : GEdge) (h : e ∈ updateEdge l f t d) :
    e ∈ l ∨ e = ⟨f, t, d⟩ := by
  induction l with
  | nil => simp [updateEdge] at h; exact Or.inr h
  | cons e0 rest ih =>
      rw [updateEdge] at h
      split at h
      · rcases List.mem_cons.mp h with hh | hh
        · exact Or.inr hh
        · exact Or.inl (List.mem_cons_of_mem _ hh)
      · rcases List.mem_cons.mp h with hh | hh
        · exact Or.inl (hh ▸ List.mem_cons_self _ _)
        · rcases ih hh with h2 | h2
          · exact Or.inl (List.mem_cons_of_mem _ h2)
          · exact Or.inr h2

theorem addModule_inv (g : ModuleGraph) (m : Module)
    (hfresh : mapLookup g.idIndexMap m.id = none) (hinv : GraphInv g) :
    GraphInv (g.addModule m) := by
  obtain ⟨h1, h2, h3, h4⟩ := hinv
  have hfa := mapLookup_none_forall g.idIndexMap m.id hfresh
  have hfilter : g.idIndexMap.filter (fun p => p.1 ≠ m.id) = g.idIndexMap := by
    rw [List.filter_eq_self]
    intro p hp
    simpa using hfa p hp
  have hlt : ∀ p ∈ g.idIndexMap, p.2 < g.nodes.length := by
    intro p hp
    obtain ⟨mm, hget, _⟩ := h1 p hp
    exact (List.getElem?_eq_some.mp hget).1
  have hmap : (g.addModule m).idIndexMap =
      g.idIndexMap ++ [(m.id, g.nodes.length)] := by
    rw [ModuleGraph.addModule, mapInsert]
    simp only [hfilter]
  have hnodes : (g.addModule m).nodes = g.nodes ++ [m] := rfl
  have hedges : (g.addModule m).edges = g.edges := rfl
  refine ⟨?_, ?_, ?_, ?_⟩
  · intro p hp
    rw [hmap] at hp
    rcases List.mem_append.mp hp with hh | hh
    · obtain ⟨mm, hget, hid⟩ := h1 p hh
      refine ⟨mm, ?_, hid⟩
      rw [hnodes, List.getElem?_append_left (hlt p hh)]
      exact hget
    · have hpe : p = (m.id, g.nodes.length) := by simpa using hh
      refine ⟨m, ?_, by rw [hpe]⟩
      rw [hpe, hnodes]
      exact List.getElem?_concat_length g.nodes m
  · rw [hmap, List.map_append]
    refine List.Nodup.append h2 (List.nodup_singleton _) ?_
    intro a ha hb
    simp only [List.map_cons, List.map_nil, List.mem_singleton] at hb
    obtain ⟨p, hp, hpe⟩ := List.mem_map.mp ha
    exact hfa p hp (hpe.trans hb)
  · intro p hp q hq heq
    rw [hmap] at hp hq
    rcases List.mem_append.mp hp with hhp | hhp <;>
      rcases List.mem_append.mp hq with hhq | hhq
    · exact h3 p hhp q hhq heq
    · have hqe : q = (m.id, g.nodes.length) := by simpa using hhq
      have := hlt p hhp
      rw [heq, hqe] at this
      simp at this
    · have hpe : p = (m.id, g.nodes.length) := by simpa using hhp
      have := hlt q hhq
      rw [← heq, hpe] at this
      simp at this
    · have hpe : p = (m.id, g.nodes.length) := by simpa using hhp
      have hqe : q = (m.id, g.nodes.length) := by simpa using hhq
      rw [hpe, hqe]
  · intro e he
    rw [hedges] at he
    obtain ⟨⟨p, hp, hps⟩, ⟨q, hq, hqs⟩⟩ := h4 e he
    exact ⟨⟨p, by rw [hmap]; exact List.mem_append_left _ hp, hps⟩,
      ⟨q, by rw [hmap]; exact List.mem_append_left _ hq, hqs⟩⟩

theorem addDependency_inv (g g2 : ModuleGraph) (fromId toId : ModuleId)
    (d : Dependency) (hinv : GraphInv g)
    (h : g.addDependency fromId toId d = some g2) :
    GraphInv g2 ∧ g2.idIndexMap = g.idIndexMap := by
  obtain ⟨h1, h2, h3, h4⟩ := hinv
  rw [ModuleGraph.addDependency] at h
  cases hf : mapLookup g.idIndexMap fromId with
  | none => rw [hf] at h; simp at h
  | some f =>
      cases ht : mapLookup g.idIndexMap toId with
      | none => rw [hf, ht] at h; simp at h
      | some t =>
          rw [hf, ht] at h
          simp only [Option.some.injEq] at h
          subst h
          refine ⟨⟨h1, h2, h3, ?_⟩, rfl⟩
          intro e he
          simp only at he
          rcases mem_updateEdge g.edges f t d e he with hh | hh
          · exact h4 e hh
          · subst hh
            exact ⟨⟨(fromId, f), mapLookup_mem _ _ _ hf, rfl⟩,
              ⟨(toId, t), mapLookup_mem _ _ _ ht, rfl⟩⟩

theorem runOps_inv :
    ∀ (ops : List GOp) (g0 g : ModuleGraph),
      GraphInv g0 → (addedIds ops).Nodup →
      (∀ id ∈ addedIds ops, mapLookup g0.idIndexMap id = none) →
      runOps g0 ops = some g → GraphInv g := by
  intro ops
  induction ops with
  | nil =>
      intro g0 g hinv _ _ hrun
      simp [runOps] at hrun
      rwa [← hrun]
  | cons op rest ih =>
      intro g0 g hinv hnd hfresh hrun
      cases op with
      | addModule m =>
          simp only [runOps, applyOp] at hrun
          have hfm : mapLookup g0.idIndexMap m.id = none :=
            hfresh m.id (by simp [addedIds])
          have hinv2 := addModule_inv g0 m hfm hinv
          have hnd2 : (addedIds rest).Nodup := by
            simp [addedIds, List.nodup_cons] at hnd
            exact hnd.2
          have hmemne : m.id ∉ addedIds rest := by
            simp [addedIds, List.nodup_cons] at hnd
            exact hnd.1
          apply ih (g0.addModule m) g hinv2 hnd2 ?_ hrun
          intro id hid
          have hne : id ≠ m.id := fun hh => hmemne (hh ▸ hid)
          have : (g0.addModule m).idIndexMap =
              mapInsert g0.idIndexMap m.id g0.nodes.length := rfl
          rw [this, mapLookup_mapInsert_ne _ _ _ _ hne]
          exact hfresh id (by simp [addedIds, hid])
      | addDependency f t d =>
          simp only [runOps, applyOp] at hrun
          cases hd : g0.addDependency f t d with
          | none => rw [hd] at hrun; simp at hrun
          | some g1 =>
              rw [hd] at hrun
              obtain ⟨hinv1, hmapeq⟩ := addDependency_inv g0 g1 f t d hinv hd
              apply ih g1 g hinv1 ?_ ?_ hrun
              · simpa [addedIds] using hnd
              · intro id hid
                rw [hmapeq]
                exact hfresh id (by simpa [addedIds] using hid)

end Mako

/-- Claim C9: starting from the empty graph, under the precondition that
`add_module` is never called twice with the same `ModuleId`, every trace of
mutating graph operations that completes (no `add_dependency` panic)
preserves the invariant: each id in the id-to-index map addresses exactly
one node carrying that id, and every edge's endpoints are indices of
previously added modules.  The read-only lookups do not mutate the graph
and preserve it trivially. -/
theorem c9_theorem (ops : List Mako.GOp) (g : Mako.ModuleGraph)
    (hnd : (Mako.addedIds ops).Nodup)
    (hrun : Mako.runOps Mako.ModuleGraph.new ops = some g) :
    Mako.GraphInv g := by
  apply Mako.runOps_inv ops Mako.ModuleGraph.new g ?_ hnd ?_ hrun
  · refine ⟨?_, ?_, ?_, ?_⟩ <;> simp [Mako.ModuleGraph.new]
  · intro id _
    rfl

/-- Witness for `c9_theorem`: add two modules (one entry) and one
dependency edge between them; the trace completes and the invariant holds
for the resulting graph. -/
theorem c9_witness :
    (Mako.addedIds
      [Mako.GOp.addModule ⟨⟨"a"⟩, true⟩,
       Mako.GOp.addModule ⟨⟨"b"⟩, false⟩,
       Mako.GOp.addDependency ⟨"a"⟩ ⟨"b"⟩ ⟨0, "b"⟩]).Nodup ∧
    Mako.runOps Mako.ModuleGraph.new
      [Mako.GOp.addModule ⟨⟨"a"⟩, true⟩,
       Mako.GOp.addModule ⟨⟨"b"⟩, false⟩,
       Mako.GOp.addDependency ⟨"a"⟩ ⟨"b"⟩ ⟨0, "b"⟩] =
      some ⟨[(⟨"a"⟩, 0), (⟨"b"⟩, 1)],
        [⟨⟨"a"⟩, true⟩, ⟨⟨"b"⟩, false⟩], [⟨0, 1, ⟨0, "b"⟩⟩], [⟨"a"⟩]⟩ ∧
    Mako.GraphInv ⟨[(⟨"a"⟩, 0), (⟨"b"⟩, 1)],
      [⟨⟨"a"⟩, true⟩, ⟨⟨"b"⟩, false⟩], [⟨0, 1, ⟨0, "b"⟩⟩], [⟨"a"⟩]⟩ :=
  ⟨by decide, by decide,
    c9_theorem
      [Mako.GOp.addModule ⟨⟨"a"⟩, true⟩,
       Mako.GOp.addModule ⟨⟨"b"⟩, false⟩,
       Mako.GOp.addDependency ⟨"a"⟩ ⟨"b"⟩ ⟨0, "b"⟩]
      ⟨[(⟨"a"⟩, 0), (⟨"b"⟩, 1)],
        [⟨⟨"a"⟩, true⟩, ⟨⟨"b"⟩, false⟩], [⟨0, 1, ⟨0, "b"⟩⟩], [⟨"a"⟩]⟩
      (by decide) (by decide)⟩

theorem mapMOpt_isSome {α β : Type} (f : α → Option β) :
    ∀ l : List α, (∀ a ∈ l, (f a).isSome) → ∃ bs, mapMOpt f l = some bs := by
  intro l
  induction l with
  | nil => intro _; exact ⟨[], rfl⟩
  | cons a rest ih =>
      intro h
      obtain ⟨b, hb⟩ := Option.isSome_iff_exists.mp
        (h a (List.mem_cons_self _ _))
      obtain ⟨bs, hbs⟩ := ih (fun x hx => h x (List.mem_cons_of_mem _ hx))
      exact ⟨b :: bs, by simp [mapMOpt, hb, hbs]⟩

/-- Claim C8: on an invariant-respecting graph, `get_dependencies` of every
registered module id returns (no panic), the returned sequence is sorted
ascending by the dependency's declaration order, it is a permutation of the
module's outgoing edges (the collected edge/target pairs before sorting),
and a second call on the unchanged graph returns the same sequence. -/
theorem c8_theorem (g : Mako.ModuleGraph) (id : Mako.ModuleId) :
    (Mako.GraphInv g → g.hasModule id = true →
      ∃ l, g.getDependencies id = some l) ∧
    (∀ l, g.getDependencies id = some l →
      List.Pairwise Mako.depLE l ∧
      (∃ i raw, Mako.mapLookup g.idIndexMap id = some i ∧
        mapMOpt (fun e => (g.nodes[e.dst]?).map (fun m => (m.id, e.dep)))
          (g.edges.filter (fun e => e.src = i)) = some raw ∧
        l.Perm raw) ∧
      g.getDependencies id = g.getDependencies id) := by
  constructor
  · intro hinv hhas
    obtain ⟨i, hl⟩ := Option.isSome_iff_exists.mp hhas
    have hall : ∀ e ∈ g.edges.filter (fun e => e.src = i),
        ((g.nodes[e.dst]?).map (fun m => (m.id, e.dep))).isSome := by
      intro e he
      have hee : e ∈ g.edges := List.mem_of_mem_filter he
      obtain ⟨-, ⟨q, hq, hqs⟩⟩ := hinv.2.2.2 e hee
      obtain ⟨m, hget, -⟩ := hinv.1 q hq
      rw [hqs] at hget
      simp [hget]
    obtain ⟨bs, hbs⟩ := mapMOpt_isSome _ _ hall
    exact ⟨List.insertionSort Mako.depLE bs,
      by simp [Mako.ModuleGraph.getDependencies, hl, hbs]⟩
  · intro l h
    rw [Mako.ModuleGraph.getDependencies] at h
    split at h
    · exact absurd h (by simp)
    next i hl =>
      split at h
      · exact absurd h (by simp)
      next deps hm =>
        simp only [Option.some.injEq] at h
        subst h
        refine ⟨?_, ⟨i, deps, hl, hm, ?_⟩, rfl⟩
        · exact List.sorted_insertionSort Mako.depLE deps
        · exact List.perm_insertionSort Mako.depLE deps

/-- Witness for `c8_theorem`: a three-module graph whose entry has two
outgoing edges inserted in reverse declaration order; `get_dependencies`
returns them sorted by order, and the sorted list is a permutation of the
collected pair list. -/
theorem c8_witness :
    Mako.ModuleGraph.getDependencies
      ⟨[(⟨"a"⟩, 0), (⟨"b"⟩, 1), (⟨"c"⟩, 2)],
        [⟨⟨"a"⟩, true⟩, ⟨⟨"b"⟩, false⟩, ⟨⟨"c"⟩, false⟩],
        [⟨0, 1, ⟨1, "b"⟩⟩, ⟨0, 2, ⟨0, "c"⟩⟩], [⟨"a"⟩]⟩ ⟨"a"⟩ =
      some [(⟨"c"⟩, ⟨0, "c"⟩), (⟨"b"⟩, ⟨1, "b"⟩)] ∧
    List.Pairwise Mako.depLE
      [((⟨"c"⟩ : Mako.ModuleId), (⟨0, "c"⟩ : Mako.Dependency)),
       (⟨"b"⟩, ⟨1, "b"⟩)] ∧
    (∃ l, Mako.ModuleGraph.getDependencies
      ⟨[(⟨"a"⟩, 0), (⟨"b"⟩, 1), (⟨"c"⟩, 2)],
        [⟨⟨"a"⟩, true⟩, ⟨⟨"b"⟩, false⟩, ⟨⟨"c"⟩, false⟩],
        [⟨0, 1, ⟨1, "b"⟩⟩, ⟨0, 2, ⟨0, "c"⟩⟩], [⟨"a"⟩]⟩ ⟨"a"⟩ = some l) :=
  ⟨by decide,
    ((c8_theorem
      ⟨[(⟨"a"⟩, 0), (⟨"b"⟩, 1), (⟨"c"⟩, 2)],
        [⟨⟨"a"⟩, true⟩, ⟨⟨"b"⟩, false⟩, ⟨⟨"c"⟩, false⟩],
        [⟨0, 1, ⟨1, "b"⟩⟩, ⟨0, 2, ⟨0, "c"⟩⟩], [⟨"a"⟩]⟩ ⟨"a"⟩).2
      [(⟨"c"⟩, ⟨0, "c"⟩), (⟨"b"⟩, ⟨1, "b"⟩)] (by decide)).1,
    (c8_theorem
      ⟨[(⟨"a"⟩, 0), (⟨"b"⟩, 1), (⟨"c"⟩, 2)],
        [⟨⟨"a"⟩, true⟩, ⟨⟨"b"⟩, false⟩, ⟨⟨"c"⟩, false⟩],
        [⟨0, 1, ⟨1, "b"⟩⟩, ⟨0, 2, ⟨0, "c"⟩⟩], [⟨"a"⟩]⟩ ⟨"a"⟩).1
      (by
        refine ⟨?_, ?_, ?_, ?_⟩
        · intro p hp
          fin_cases hp <;> exact ⟨_, rfl, rfl⟩
        · decide
        · decide
        · intro e he
          fin_cases he
          · exact ⟨⟨(⟨"a"⟩, 0), by decide, rfl⟩, ⟨(⟨"b"⟩, 1), by decide, rfl⟩⟩
          · exact ⟨⟨(⟨"a"⟩, 0), by decide, rfl⟩, ⟨(⟨"c"⟩, 2), by decide, rfl⟩⟩)
      (by decide)⟩
